import Mathlib

/-
Verification development for the delila-rs repository DELILA file decoder
(src/macros/read_delila.C and src/macros/convert_to_tree.C).

The two C++ macros embed near-identical hand-rolled MessagePack parsers
(class MsgPackParser) plus a file-framing loop.  We shallow-embed them here:

  * a byte buffer is a `List Nat` (each element a byte value < 256; the C
    type uint8_t guarantees this on real data);
  * the parser state `PState` is the pair (data_, pos_) of MsgPackParser;
  * each C member function `bool f(outs...)` that mutates `pos_` becomes a
    pure Lean function `PState -> Option outs × PState`; the returned state
    carries the final `pos_` also on failure, exactly as the C code leaves
    `pos_` after an early `return false`;
  * C bit operations `<<` and `|` are `<<<` and `|||` on Nat (the C
    expressions never overflow the 64-bit result type for byte inputs);
  * `double` values are represented by their 64-bit big-endian bit pattern
    (std::memcpy of the bits into a double is a bijection on bit patterns,
    and no claim inspects the floating-point value itself);
  * fixed-size output arrays (int16_t arr[max_size]) are modelled by the
    list of samples actually stored, in store order: the C code writes
    arr[i] only for i < max_size, so the list is exactly the written cells.
-/

namespace Delila

/-- Parser state of MsgPackParser: the byte buffer `data_` and cursor `pos_`. -/
structure PState where
  data : List Nat
  pos : Nat
deriving DecidableEq, Repr

/-- Byte access `data_[i]` (total, defaulting to 0; all verified runs access
in bounds, see the C9 theorem). -/
def byteAt (s : PState) (i : Nat) : Nat := s.data.getD i 0

/-- Big-endian 2-byte recombination `(b0 << 8) | b1`. -/
def be2 (b0 b1 : Nat) : Nat := (b0 <<< 8) ||| b1

/-- Big-endian 4-byte recombination. -/
def be4 (b0 b1 b2 b3 : Nat) : Nat :=
  (b0 <<< 24) ||| (b1 <<< 16) ||| (b2 <<< 8) ||| b3

/-- Big-endian 8-byte recombination. -/
def be8 (b0 b1 b2 b3 b4 b5 b6 b7 : Nat) : Nat :=
  (b0 <<< 56) ||| (b1 <<< 48) ||| (b2 <<< 40) ||| (b3 <<< 32) |||
  (b4 <<< 24) ||| (b5 <<< 16) ||| (b6 <<< 8) ||| b7

/-- MsgPackParser::read_array_header (identical in both macros):
fixarray 0x90-0x9f, array16 0xdc, array32 0xdd. -/
def read_array_header (s : PState) : Option Nat × PState :=
  if s.pos < s.data.length then
    let b := byteAt s s.pos
    let p := s.pos + 1
    if b &&& 0xf0 = 0x90 then
      (some (b &&& 0x0f), ⟨s.data, p⟩)
    else if b = 0xdc ∧ p + 2 ≤ s.data.length then
      (some (be2 (byteAt s p) (byteAt s (p + 1))), ⟨s.data, p + 2⟩)
    else if b = 0xdd ∧ p + 4 ≤ s.data.length then
      (some (be4 (byteAt s p) (byteAt s (p + 1)) (byteAt s (p + 2))
        (byteAt s (p + 3))), ⟨s.data, p + 4⟩)
    else (none, ⟨s.data, p⟩)
  else (none, s)

/-- MsgPackParser::read_uint (identical in both macros): positive fixint
0x00-0x7f, uint8 0xcc, uint16 0xcd, uint32 0xce, uint64 0xcf. -/
def read_uint (s : PState) : Option Nat × PState :=
  if s.pos < s.data.length then
    let b := byteAt s s.pos
    let p := s.pos + 1
    if b ≤ 0x7f then
      (some b, ⟨s.data, p⟩)
    else if b = 0xcc ∧ p + 1 ≤ s.data.length then
      (some (byteAt s p), ⟨s.data, p + 1⟩)
    else if b = 0xcd ∧ p + 2 ≤ s.data.length then
      (some (be2 (byteAt s p) (byteAt s (p + 1))), ⟨s.data, p + 2⟩)
    else if b = 0xce ∧ p + 4 ≤ s.data.length then
      (some (be4 (byteAt s p) (byteAt s (p + 1)) (byteAt s (p + 2))
        (byteAt s (p + 3))), ⟨s.data, p + 4⟩)
    else if b = 0xcf ∧ p + 8 ≤ s.data.length then
      (some (be8 (byteAt s p) (byteAt s (p + 1)) (byteAt s (p + 2))
        (byteAt s (p + 3)) (byteAt s (p + 4)) (byteAt s (p + 5))
        (byteAt s (p + 6)) (byteAt s (p + 7))), ⟨s.data, p + 8⟩)
    else (none, ⟨s.data, p⟩)
  else (none, s)

/-- C++ `static_cast<int8_t>` of a byte value. -/
def i8val (b : Nat) : Int := if b < 128 then (b : Int) else (b : Int) - 256

/-- C++ `static_cast<int16_t>` of a 16-bit unsigned value. -/
def i16val (u : Nat) : Int := if u < 32768 then (u : Int) else (u : Int) - 65536

/-- C++ `static_cast<int32_t>` of a 32-bit unsigned value. -/
def i32val (u : Nat) : Int :=
  if u < 2147483648 then (u : Int) else (u : Int) - 4294967296

/-- C++ `static_cast<int64_t>` of a 64-bit unsigned value. -/
def i64val (u : Nat) : Int :=
  if u < 9223372036854775808 then (u : Int) else (u : Int) - 18446744073709551616

/-- MsgPackParser::read_int (convert_to_tree.C): positive fixint, negative
fixint 0xe0-0xff, int8 0xd0, int16 0xd1, int32 0xd2, and a fallback to
read_uint for values encoded with an unsigned tag.  Note the C code peeks
the tag byte (no increment) and each explicit-width branch checks bounds
counting the tag byte itself, then consumes it. -/
def read_int (s : PState) : Option Int × PState :=
  if s.pos < s.data.length then
    let b := byteAt s s.pos
    if b ≤ 0x7f then
      (some (b : Int), ⟨s.data, s.pos + 1⟩)
    else if 0xe0 ≤ b then
      (some (i8val b), ⟨s.data, s.pos + 1⟩)
    else if b = 0xd0 ∧ s.pos + 2 ≤ s.data.length then
      (some (i8val (byteAt s (s.pos + 1))), ⟨s.data, s.pos + 2⟩)
    else if b = 0xd1 ∧ s.pos + 3 ≤ s.data.length then
      (some (i16val (be2 (byteAt s (s.pos + 1)) (byteAt s (s.pos + 2)))),
        ⟨s.data, s.pos + 3⟩)
    else if b = 0xd2 ∧ s.pos + 5 ≤ s.data.length then
      (some (i32val (be4 (byteAt s (s.pos + 1)) (byteAt s (s.pos + 2))
        (byteAt s (s.pos + 3)) (byteAt s (s.pos + 4)))), ⟨s.data, s.pos + 5⟩)
    else
      match read_uint s with
      | (some u, s1) => (some (i64val u), s1)
      | (none, s1) => (none, s1)
  else (none, s)

/-- MsgPackParser::read_float64 (identical in both macros): tag 0xcb plus
8 bytes, big-endian IEEE-754 bit pattern.  The value is modelled by its bit
pattern. -/
def read_float64 (s : PState) : Option Nat × PState :=
  if s.pos < s.data.length then
    let b := byteAt s s.pos
    let p := s.pos + 1
    if b = 0xcb ∧ p + 8 ≤ s.data.length then
      (some (be8 (byteAt s p) (byteAt s (p + 1)) (byteAt s (p + 2))
        (byteAt s (p + 3)) (byteAt s (p + 4)) (byteAt s (p + 5))
        (byteAt s (p + 6)) (byteAt s (p + 7))), ⟨s.data, p + 8⟩)
    else (none, ⟨s.data, p⟩)
  else (none, s)

/-- Common tail of MsgPackParser::read_bin once the declared size and the
position q just past the length field are known: `n = min(size, max_size)`,
bounds check `pos_ + size > data_.size()`, memcpy of n bytes, cursor
advance by the full declared size. -/
def read_bin_finish (max_size : Nat) (data : List Nat) (size q : Nat) :
    Option (Nat × List Nat) × PState :=
  let n := min size max_size
  if q + size ≤ data.length then
    (some (n, (data.drop q).take n), ⟨data, q + size⟩)
  else (none, ⟨data, q⟩)

/-- MsgPackParser::read_bin (convert_to_tree.C): bin8 0xc4, bin16 0xc5,
bin32 0xc6. -/
def read_bin (max_size : Nat) (s : PState) : Option (Nat × List Nat) × PState :=
  if s.pos < s.data.length then
    let b := byteAt s s.pos
    let p := s.pos + 1
    if b = 0xc4 ∧ p + 1 ≤ s.data.length then
      read_bin_finish max_size s.data (byteAt s p) (p + 1)
    else if b = 0xc5 ∧ p + 2 ≤ s.data.length then
      read_bin_finish max_size s.data (be2 (byteAt s p) (byteAt s (p + 1))) (p + 2)
    else if b = 0xc6 ∧ p + 4 ≤ s.data.length then
      read_bin_finish max_size s.data (be4 (byteAt s p) (byteAt s (p + 1))
        (byteAt s (p + 2)) (byteAt s (p + 3))) (p + 4)
    else (none, ⟨s.data, p⟩)
  else (none, s)

/-- The element loop of MsgPackParser::read_u8_array: reads `k` more
unsigned values, the current element index being `i`; stores
`static_cast<uint8_t>(val)` only while `i < max_size`. -/
def readU8Elems (max_size : Nat) : Nat → Nat → PState → Option (List Nat) × PState
  | 0, _, s => (some [], s)
  | k + 1, i, s =>
    match read_uint s with
    | (none, s1) => (none, s1)
    | (some v, s1) =>
      match readU8Elems max_size k (i + 1) s1 with
      | (none, s2) => (none, s2)
      | (some rest, s2) =>
        (some (if i < max_size then (v % 256) :: rest else rest), s2)

/-- The element loop of MsgPackParser::read_i16_array: reads `k` more signed
values; stores `static_cast<int16_t>(val)` only while `i < max_size`. -/
def i16cast (v : Int) : Int :=
  if v % 65536 < 32768 then v % 65536 else v % 65536 - 65536

def readI16Elems (max_size : Nat) : Nat → Nat → PState → Option (List Int) × PState
  | 0, _, s => (some [], s)
  | k + 1, i, s =>
    match read_int s with
    | (none, s1) => (none, s1)
    | (some v, s1) =>
      match readI16Elems max_size k (i + 1) s1 with
      | (none, s2) => (none, s2)
      | (some rest, s2) =>
        (some (if i < max_size then i16cast v :: rest else rest), s2)

/-- MsgPackParser::read_u8_array (convert_to_tree.C): peeks the next tag; a
bin8/16/32 tag dispatches to read_bin, anything else is decoded as a
MessagePack array of unsigned ints.  Returns (n, stored samples) with
`n = min(declared size, max_size)`. -/
def read_u8_array (max_size : Nat) (s : PState) : Option (Nat × List Nat) × PState :=
  if s.pos < s.data.length then
    let b := byteAt s s.pos
    if b = 0xc4 ∨ b = 0xc5 ∨ b = 0xc6 then
      read_bin max_size s
    else
      match read_array_header s with
      | (none, s1) => (none, s1)
      | (some size, s1) =>
        match readU8Elems max_size size 0 s1 with
        | (none, s2) => (none, s2)
        | (some stored, s2) => (some (min size max_size, stored), s2)
  else (none, s)

/-- MsgPackParser::read_i16_array (convert_to_tree.C). -/
def read_i16_array (max_size : Nat) (s : PState) : Option (Nat × List Int) × PState :=
  match read_array_header s with
  | (none, s1) => (none, s1)
  | (some size, s1) =>
    match readI16Elems max_size size 0 s1 with
    | (none, s2) => (none, s2)
    | (some stored, s2) => (some (min size max_size, stored), s2)

/-- MAX_WAVEFORM_SAMPLES from convert_to_tree.C. -/
def MAX_WAVEFORM_SAMPLES : Nat := 16384

/-- Waveform record produced by MsgPackParser::parse_waveform: the n_* counts
and stored sample lists for the six probes, plus time_resolution and
trigger_threshold. -/
structure Waveform where
  n_analog1 : Nat
  analog1 : List Int
  n_analog2 : Nat
  analog2 : List Int
  n_digital1 : Nat
  digital1 : List Nat
  n_digital2 : Nat
  digital2 : List Nat
  n_digital3 : Nat
  digital3 : List Nat
  n_digital4 : Nat
  digital4 : List Nat
  time_resolution : Nat
  trigger_threshold : Nat
deriving DecidableEq, Repr

/-- The zeroed waveform fields set by parse_event before the optional
waveform block is decoded. -/
def emptyWaveform : Waveform := ⟨0, [], 0, [], 0, [], 0, [], 0, [], 0, [], 0, 0⟩

/-- MsgPackParser::parse_waveform (convert_to_tree.C): an 8-element array of
two i16 sample arrays, four u8 sample arrays (bin or array form), then
time_resolution (u8) and trigger_threshold (u16). -/
def parse_waveform (s : PState) : Option Waveform × PState :=
  match read_array_header s with
  | (none, s1) => (none, s1)
  | (some wf_size, s1) =>
    if wf_size = 8 then
      match read_i16_array MAX_WAVEFORM_SAMPLES s1 with
      | (none, s2) => (none, s2)
      | (some (n1, a1), s2) =>
      match read_i16_array MAX_WAVEFORM_SAMPLES s2 with
      | (none, s3) => (none, s3)
      | (some (n2, a2), s3) =>
      match read_u8_array MAX_WAVEFORM_SAMPLES s3 with
      | (none, s4) => (none, s4)
      | (some (m1, d1), s4) =>
      match read_u8_array MAX_WAVEFORM_SAMPLES s4 with
      | (none, s5) => (none, s5)
      | (some (m2, d2), s5) =>
      match read_u8_array MAX_WAVEFORM_SAMPLES s5 with
      | (none, s6) => (none, s6)
      | (some (m3, d3), s6) =>
      match read_u8_array MAX_WAVEFORM_SAMPLES s6 with
      | (none, s7) => (none, s7)
      | (some (m4, d4), s7) =>
      match read_uint s7 with
      | (none, s8) => (none, s8)
      | (some tr, s8) =>
      match read_uint s8 with
      | (none, s9) => (none, s9)
      | (some th, s9) =>
        (some ⟨n1, a1, n2, a2, m1, d1, m2, d2, m3, d3, m4, d4,
          tr % 256, th % 65536⟩, s9)
    else (none, s1)

/-- Event record produced by the full parser MsgPackParser::parse_event of
convert_to_tree.C.  timestamp_bits is the big-endian bit pattern of the f64
timestamp_ns. -/
structure EventFull where
  module : Nat
  channel : Nat
  energy : Nat
  energy_short : Nat
  timestamp_bits : Nat
  flags : Nat
  has_waveform : Bool
  wf : Waveform
deriving DecidableEq, Repr

/-- MsgPackParser::parse_event of convert_to_tree.C: an array of 6 or 7
elements, the count alone selecting whether a waveform block follows. -/
def parse_event_full (s : PState) : Option EventFull × PState :=
  match read_array_header s with
  | (none, s1) => (none, s1)
  | (some ev_size, s1) =>
    if ev_size = 6 ∨ ev_size = 7 then
      match read_uint s1 with
      | (none, s2) => (none, s2)
      | (some m, s2) =>
      match read_uint s2 with
      | (none, s3) => (none, s3)
      | (some c, s3) =>
      match read_uint s3 with
      | (none, s4) => (none, s4)
      | (some e, s4) =>
      match read_uint s4 with
      | (none, s5) => (none, s5)
      | (some es, s5) =>
      match read_float64 s5 with
      | (none, s6) => (none, s6)
      | (some ts, s6) =>
      match read_uint s6 with
      | (none, s7) => (none, s7)
      | (some fl, s7) =>
        if ev_size = 7 then
          match parse_waveform s7 with
          | (none, s8) => (none, s8)
          | (some w, s8) =>
            (some ⟨m % 256, c % 256, e % 65536, es % 65536, ts, fl, true, w⟩, s8)
        else
          (some ⟨m % 256, c % 256, e % 65536, es % 65536, ts, fl, false,
            emptyWaveform⟩, s7)
    else (none, s1)

/-- Event record of read_delila.C (struct Event, matching the Rust
MinimalEventData). -/
structure EventSummary where
  module : Nat
  channel : Nat
  energy : Nat
  energy_short : Nat
  timestamp_bits : Nat
  flags : Nat
deriving DecidableEq, Repr

/-- MsgPackParser::parse_event of read_delila.C: the summary shape accepts
only a 6-element event array. -/
def parse_event_summary (s : PState) : Option EventSummary × PState :=
  match read_array_header s with
  | (none, s1) => (none, s1)
  | (some ev_size, s1) =>
    if ev_size = 6 then
      match read_uint s1 with
      | (none, s2) => (none, s2)
      | (some m, s2) =>
      match read_uint s2 with
      | (none, s3) => (none, s3)
      | (some c, s3) =>
      match read_uint s3 with
      | (none, s4) => (none, s4)
      | (some e, s4) =>
      match read_uint s4 with
      | (none, s5) => (none, s5)
      | (some es, s5) =>
      match read_float64 s5 with
      | (none, s6) => (none, s6)
      | (some ts, s6) =>
      match read_uint s6 with
      | (none, s7) => (none, s7)
      | (some fl, s7) =>
        (some ⟨m % 256, c % 256, e % 65536, es % 65536, ts, fl⟩, s7)
    else (none, s1)

/-- The event loop of MsgPackParser::parse_batch (read_delila.C): parse
`k` summary events in order; any failure discards the whole batch. -/
def parseEvents : Nat → PState → Option (List EventSummary) × PState
  | 0, s => (some [], s)
  | k + 1, s =>
    match parse_event_summary s with
    | (none, s1) => (none, s1)
    | (some ev, s1) =>
      match parseEvents k s1 with
      | (none, s2) => (none, s2)
      | (some evs, s2) => (some (ev :: evs), s2)

/-- MsgPackParser::parse_batch (read_delila.C): a 4-element array of
source_id, sequence_number (skipped), timestamp (skipped), and the event
array. -/
def parse_batch (s : PState) : Option (Nat × List EventSummary) × PState :=
  match read_array_header s with
  | (none, s1) => (none, s1)
  | (some bsz, s1) =>
    if bsz = 4 then
      match read_uint s1 with
      | (none, s2) => (none, s2)
      | (some src, s2) =>
      match read_uint s2 with
      | (none, s3) => (none, s3)
      | (some _, s3) =>
      match read_uint s3 with
      | (none, s4) => (none, s4)
      | (some _, s4) =>
      match read_array_header s4 with
      | (none, s5) => (none, s5)
      | (some n, s5) =>
      match parseEvents n s5 with
      | (none, s6) => (none, s6)
      | (some evs, s6) => (some (src % 4294967296, evs), s6)
    else (none, s1)

/-- read_u32_le over the whole file buffer: little-endian, as used for the
header length and the block length prefixes. -/
def u32le (file : List Nat) (p : Nat) : Nat :=
  file.getD p 0 ||| (file.getD (p + 1) 0 <<< 8) |||
  (file.getD (p + 2) 0 <<< 16) ||| (file.getD (p + 3) 0 <<< 24)

/-- The byte values of the file magic "DELILA02". -/
def FILE_MAGIC : List Nat := [0x44, 0x45, 0x4c, 0x49, 0x4c, 0x41, 0x30, 0x32]

/-- The byte values of the footer magic "DLEND002". -/
def FOOTER_MAGIC : List Nat := [0x44, 0x4c, 0x45, 0x4e, 0x44, 0x30, 0x30, 0x32]

def FOOTER_SIZE : Nat := 64

/-- read_header of read_delila.C: check the 8-byte magic, read the 32-bit
header length, and skip past it; returns the data start offset. -/
def read_header_m (file : List Nat) : Option Nat :=
  if file.take 8 = FILE_MAGIC then some (12 + u32le file 8) else none

/-- read_footer of read_delila.C, reduced to its validation outcome: true
exactly when the file holds a 64-byte trailer beginning with the footer
magic.  Both failure modes (file too small, magic mismatch) print a warning
and return false; the caller ignores the result. -/
def read_footer_m (file : List Nat) : Bool :=
  if FOOTER_SIZE ≤ file.length ∧
      (file.drop (file.length - FOOTER_SIZE)).take 8 = FOOTER_MAGIC then
    true
  else false

/-- The streaming block loop of read_delila (read_delila.C, default
max_events = -1): while the cursor is before the data-region end, read a
32-bit block length; stop the whole file on a length of 0 or above the
100000000-byte ceiling; otherwise read that many payload bytes (stopping on
a short read, which mirrors the f.good() check) and parse the block,
appending its events on success and stopping the file on parse failure.

The C while-loop terminates because each iteration advances the cursor by
at least 4 bytes; the structural `fuel` argument bounds the iteration count
and callers pass more fuel than iterations can occur (file.length + 1). -/
def streamLoop (file : List Nat) (dataEnd : Nat) :
    Nat → Nat → List EventSummary → List EventSummary × Nat
  | 0, pos, acc => (acc, pos)
  | fuel + 1, pos, acc =>
    if pos < dataEnd then
      if u32le file pos = 0 ∨ u32le file pos > 100000000 then
        (acc, pos + 4)
      else if pos + 4 + u32le file pos ≤ file.length then
        match parse_batch ⟨(file.drop (pos + 4)).take (u32le file pos), 0⟩ with
        | (some b, _) =>
          streamLoop file dataEnd fuel (pos + 4 + u32le file pos) (acc ++ b.2)
        | (none, _) => (acc, pos + 4 + u32le file pos)
      else (acc, pos + 4)
    else (acc, pos)

/-- read_delila (read_delila.C): validate the header (fatal on bad magic),
run read_footer for its diagnostics (result ignored: non-fatal), then
stream the data region [header end, file size - 64) and return the decoded
events together with the footer-validation outcome. -/
def read_delila_m (file : List Nat) : Option (List EventSummary × Bool) :=
  match read_header_m file with
  | none => none
  | some hend =>
    some ((streamLoop file (file.length - FOOTER_SIZE) (file.length + 1)
      hend []).1, read_footer_m file)

/-
Bit-recombination helpers: for byte-sized operands the C expressions
`(a << k) | b` combine disjoint bit ranges, so bitwise or is addition.
-/

theorem or_add (x y m : Nat) (hm : ∃ i, m = 2 ^ i) (hx : m ∣ x) (hy : y < m) :
    x ||| y = x + y := by
  obtain ⟨i, rfl⟩ := hm
  obtain ⟨q, rfl⟩ := hx
  exact (Nat.mul_add_lt_is_or hy q).symm

theorem be2_eq (b0 b1 : Nat) (h1 : b1 < 256) : be2 b0 b1 = b0 * 256 + b1 := by
  unfold be2
  rw [Nat.shiftLeft_eq]
  rw [or_add (b0 * 2 ^ 8) b1 (2 ^ 8) ⟨8, rfl⟩ (by omega) (by omega)]

theorem be4_eq (b0 b1 b2 b3 : Nat) (h1 : b1 < 256) (h2 : b2 < 256)
    (h3 : b3 < 256) :
    be4 b0 b1 b2 b3 = b0 * 16777216 + b1 * 65536 + b2 * 256 + b3 := by
  unfold be4
  rw [Nat.shiftLeft_eq, Nat.shiftLeft_eq, Nat.shiftLeft_eq]
  rw [or_add (b0 * 2 ^ 24) (b1 * 2 ^ 16) (2 ^ 24) ⟨24, rfl⟩ (by omega) (by omega)]
  rw [or_add (b0 * 2 ^ 24 + b1 * 2 ^ 16) (b2 * 2 ^ 8) (2 ^ 16) ⟨16, rfl⟩
    (by omega) (by omega)]
  rw [or_add (b0 * 2 ^ 24 + b1 * 2 ^ 16 + b2 * 2 ^ 8) b3 (2 ^ 8) ⟨8, rfl⟩
    (by omega) (by omega)]

theorem be8_eq (b0 b1 b2 b3 b4 b5 b6 b7 : Nat) (h1 : b1 < 256) (h2 : b2 < 256)
    (h3 : b3 < 256) (h4 : b4 < 256) (h5 : b5 < 256) (h6 : b6 < 256)
    (h7 : b7 < 256) :
    be8 b0 b1 b2 b3 b4 b5 b6 b7 =
      b0 * 72057594037927936 + b1 * 281474976710656 + b2 * 1099511627776 +
      b3 * 4294967296 + b4 * 16777216 + b5 * 65536 + b6 * 256 + b7 := by
  unfold be8
  rw [Nat.shiftLeft_eq, Nat.shiftLeft_eq, Nat.shiftLeft_eq, Nat.shiftLeft_eq,
    Nat.shiftLeft_eq, Nat.shiftLeft_eq, Nat.shiftLeft_eq]
  rw [or_add (b0 * 2 ^ 56) (b1 * 2 ^ 48) (2 ^ 56) ⟨56, rfl⟩ (by omega) (by omega)]
  rw [or_add (b0 * 2 ^ 56 + b1 * 2 ^ 48) (b2 * 2 ^ 40) (2 ^ 48) ⟨48, rfl⟩
    (by omega) (by omega)]
  rw [or_add (b0 * 2 ^ 56 + b1 * 2 ^ 48 + b2 * 2 ^ 40) (b3 * 2 ^ 32) (2 ^ 40)
    ⟨40, rfl⟩ (by omega) (by omega)]
  rw [or_add (b0 * 2 ^ 56 + b1 * 2 ^ 48 + b2 * 2 ^ 40 + b3 * 2 ^ 32)
    (b4 * 2 ^ 24) (2 ^ 32) ⟨32, rfl⟩ (by omega) (by omega)]
  rw [or_add (b0 * 2 ^ 56 + b1 * 2 ^ 48 + b2 * 2 ^ 40 + b3 * 2 ^ 32 +
    b4 * 2 ^ 24) (b5 * 2 ^ 16) (2 ^ 24) ⟨24, rfl⟩ (by omega) (by omega)]
  rw [or_add (b0 * 2 ^ 56 + b1 * 2 ^ 48 + b2 * 2 ^ 40 + b3 * 2 ^ 32 +
    b4 * 2 ^ 24 + b5 * 2 ^ 16) (b6 * 2 ^ 8) (2 ^ 16) ⟨16, rfl⟩
    (by omega) (by omega)]
  rw [or_add (b0 * 2 ^ 56 + b1 * 2 ^ 48 + b2 * 2 ^ 40 + b3 * 2 ^ 32 +
    b4 * 2 ^ 24 + b5 * 2 ^ 16 + b6 * 2 ^ 8) b7 (2 ^ 8) ⟨8, rfl⟩
    (by omega) (by omega)]

theorem be2_digits (v : Nat) : be2 (v / 256) (v % 256) = v := by
  rw [be2_eq _ _ (Nat.mod_lt v (by norm_num))]
  omega

theorem be4_digits (v : Nat) :
    be4 (v / 16777216) (v / 65536 % 256) (v / 256 % 256) (v % 256) = v := by
  rw [be4_eq _ _ _ _ (Nat.mod_lt _ (by norm_num)) (Nat.mod_lt _ (by norm_num))
    (Nat.mod_lt v (by norm_num))]
  omega

theorem be8_digits (v : Nat) :
    be8 (v / 72057594037927936) (v / 281474976710656 % 256)
      (v / 1099511627776 % 256) (v / 4294967296 % 256) (v / 16777216 % 256)
      (v / 65536 % 256) (v / 256 % 256) (v % 256) = v := by
  rw [be8_eq _ _ _ _ _ _ _ _ (Nat.mod_lt _ (by norm_num))
    (Nat.mod_lt _ (by norm_num)) (Nat.mod_lt _ (by norm_num))
    (Nat.mod_lt _ (by norm_num)) (Nat.mod_lt _ (by norm_num))
    (Nat.mod_lt _ (by norm_num)) (Nat.mod_lt v (by norm_num))]
  omega

/-
Stream-view helpers: a hypothesis `s.data.drop s.pos = b :: tl` pins down
the byte under the cursor, the buffer length, and the rest of the stream.
-/

theorem view_byte {s : PState} {i b : Nat} {tl : List Nat}
    (h : s.data.drop i = b :: tl) : byteAt s i = b := by
  unfold byteAt
  rw [List.getD_eq_getElem?_getD]
  have : s.data[i]? = some b := by
    have h0 : (s.data.drop i)[0]? = some b := by rw [h]; simp
    rw [List.getElem?_drop] at h0
    simpa using h0
  rw [this]
  rfl

theorem view_len {s : PState} {i b : Nat} {tl : List Nat}
    (h : s.data.drop i = b :: tl) : s.data.length = i + 1 + tl.length := by
  have h1 : (s.data.drop i).length = tl.length + 1 := by rw [h]; rfl
  rw [List.length_drop] at h1
  have h2 : i ≤ s.data.length := by
    by_contra hc
    have : s.data.drop i = [] := List.drop_eq_nil_of_le (by omega)
    rw [this] at h
    exact (List.cons_ne_nil b tl) h.symm
  omega

theorem view_tail {s : PState} {i b : Nat} {tl : List Nat}
    (h : s.data.drop i = b :: tl) : s.data.drop (i + 1) = tl := by
  have := List.drop_drop 1 i s.data
  rw [h] at this
  simpa using this.symm

/-
MessagePack encoders for the encode-then-decode round-trip claims.  The
encoders are not part of the C source (the producer lives in the Rust
recorder); they spell out the wire format named by the spec: each explicit
width tag followed by the value in big-endian byte order, and the two-sided
complement bytes for the signed forms.
-/

def encUintFix (v : Nat) : List Nat := [v]

def encUint8 (v : Nat) : List Nat := [0xcc, v]

def encUint16 (v : Nat) : List Nat := [0xcd, v / 256, v % 256]

def encUint32 (v : Nat) : List Nat :=
  [0xce, v / 16777216, v / 65536 % 256, v / 256 % 256, v % 256]

def encUint64 (v : Nat) : List Nat :=
  [0xcf, v / 72057594037927936, v / 281474976710656 % 256,
   v / 1099511627776 % 256, v / 4294967296 % 256, v / 16777216 % 256,
   v / 65536 % 256, v / 256 % 256, v % 256]

def encNegFix (v : Int) : List Nat := [(v + 256).toNat]

def encInt8 (v : Int) : List Nat := [0xd0, (v % 256).toNat]

def encInt16 (v : Int) : List Nat :=
  [0xd1, (v % 65536).toNat / 256, (v % 65536).toNat % 256]

def encInt32 (v : Int) : List Nat :=
  [0xd2, (v % 4294967296).toNat / 16777216, (v % 4294967296).toNat / 65536 % 256,
   (v % 4294967296).toNat / 256 % 256, (v % 4294967296).toNat % 256]

/-
Decode specifications of read_uint against each unsigned encoding, at an
arbitrary cursor position and with arbitrary following bytes.
-/

theorem read_uint_spec_fix {s : PState} {v : Nat} {rest : List Nat}
    (h : s.data.drop s.pos = encUintFix v ++ rest) (hv : v ≤ 0x7f) :
    read_uint s = (some v, ⟨s.data, s.pos + 1⟩) := by
  simp only [encUintFix, List.cons_append, List.nil_append] at h
  have hl := view_len h
  have hp : s.pos < s.data.length := by omega
  simp [read_uint, view_byte h, hp, hv]

theorem read_uint_spec_u8 {s : PState} {v : Nat} {rest : List Nat}
    (h : s.data.drop s.pos = encUint8 v ++ rest) :
    read_uint s = (some v, ⟨s.data, s.pos + 2⟩) := by
  simp only [encUint8, List.cons_append, List.nil_append] at h
  have h1 := view_tail h
  have hl := view_len h1
  have hp : s.pos < s.data.length := by omega
  have hb : s.pos + 1 + 1 ≤ s.data.length := by omega
  simp [read_uint, view_byte h, view_byte h1, hp, hb]

theorem read_uint_spec_u16 {s : PState} {v : Nat} {rest : List Nat}
    (h : s.data.drop s.pos = encUint16 v ++ rest) :
    read_uint s = (some v, ⟨s.data, s.pos + 3⟩) := by
  simp only [encUint16, List.cons_append, List.nil_append] at h
  have h1 := view_tail h
  have h2 := view_tail h1
  have hl := view_len h2
  have hp : s.pos < s.data.length := by omega
  have hb : s.pos + 1 + 2 ≤ s.data.length := by omega
  simp [read_uint, view_byte h, view_byte h1, view_byte h2, hp, hb, be2_digits]

theorem read_uint_spec_u32 {s : PState} {v : Nat} {rest : List Nat}
    (h : s.data.drop s.pos = encUint32 v ++ rest) :
    read_uint s = (some v, ⟨s.data, s.pos + 5⟩) := by
  simp only [encUint32, List.cons_append, List.nil_append] at h
  have h1 := view_tail h
  have h2 := view_tail h1
  have h3 := view_tail h2
  have h4 := view_tail h3
  have hl := view_len h4
  have hp : s.pos < s.data.length := by omega
  have hb : s.pos + 1 + 4 ≤ s.data.length := by omega
  simp [read_uint, view_byte h, view_byte h1, view_byte h2, view_byte h3,
    view_byte h4, hp, hb, be4_digits]

theorem read_uint_spec_u64 {s : PState} {v : Nat} {rest : List Nat}
    (h : s.data.drop s.pos = encUint64 v ++ rest) :
    read_uint s = (some v, ⟨s.data, s.pos + 9⟩) := by
  simp only [encUint64, List.cons_append, List.nil_append] at h
  have h1 := view_tail h
  have h2 := view_tail h1
  have h3 := view_tail h2
  have h4 := view_tail h3
  have h5 := view_tail h4
  have h6 := view_tail h5
  have h7 := view_tail h6
  have h8 := view_tail h7
  have hl := view_len h8
  have hp : s.pos < s.data.length := by omega
  have hb : s.pos + 1 + 8 ≤ s.data.length := by omega
  simp [read_uint, view_byte h, view_byte h1, view_byte h2, view_byte h3,
    view_byte h4, view_byte h5, view_byte h6, view_byte h7, view_byte h8,
    hp, hb, be8_digits]

/-
Decode specifications of read_int against each signed encoding.
-/

theorem read_int_spec_fix {s : PState} {v : Nat} {rest : List Nat}
    (h : s.data.drop s.pos = encUintFix v ++ rest) (hv : v ≤ 0x7f) :
    read_int s = (some (v : Int), ⟨s.data, s.pos + 1⟩) := by
  simp only [encUintFix, List.cons_append, List.nil_append] at h
  have hl := view_len h
  have hp : s.pos < s.data.length := by omega
  simp [read_int, view_byte h, hp, hv]

theorem read_int_spec_negfix {s : PState} {v : Int} {rest : List Nat}
    (h : s.data.drop s.pos = encNegFix v ++ rest) (hv1 : -32 ≤ v) (hv2 : v < 0) :
    read_int s = (some v, ⟨s.data, s.pos + 1⟩) := by
  simp only [encNegFix, List.cons_append, List.nil_append] at h
  have hl := view_len h
  have hp : s.pos < s.data.length := by omega
  have hb1 : ¬((v + 256).toNat ≤ 0x7f) := by omega
  have hb2 : 0xe0 ≤ (v + 256).toNat := by omega
  have hval : i8val (v + 256).toNat = v := by
    simp only [i8val]
    split <;> omega
  simp [read_int, view_byte h, hp, hb1, hb2, hval]

theorem read_int_spec_i8 {s : PState} {v : Int} {rest : List Nat}
    (h : s.data.drop s.pos = encInt8 v ++ rest) (hv1 : -128 ≤ v) (hv2 : v < 128) :
    read_int s = (some v, ⟨s.data, s.pos + 2⟩) := by
  simp only [encInt8, List.cons_append, List.nil_append] at h
  have h1 := view_tail h
  have hl := view_len h1
  have hp : s.pos < s.data.length := by omega
  have hb : s.pos + 2 ≤ s.data.length := by omega
  have hval : i8val (v % 256).toNat = v := by
    simp only [i8val]
    split <;> omega
  simp [read_int, view_byte h, view_byte h1, hp, hb, hval]

theorem read_int_spec_i16 {s : PState} {v : Int} {rest : List Nat}
    (h : s.data.drop s.pos = encInt16 v ++ rest) (hv1 : -32768 ≤ v)
    (hv2 : v < 32768) :
    read_int s = (some v, ⟨s.data, s.pos + 3⟩) := by
  simp only [encInt16, List.cons_append, List.nil_append] at h
  have h1 := view_tail h
  have h2 := view_tail h1
  have hl := view_len h2
  have hp : s.pos < s.data.length := by omega
  have hb : s.pos + 3 ≤ s.data.length := by omega
  have hval : i16val (v % 65536).toNat = v := by
    simp only [i16val]
    split <;> omega
  simp [read_int, view_byte h, view_byte h1, view_byte h2, hp, hb,
    be2_digits, hval]

theorem read_int_spec_i32 {s : PState} {v : Int} {rest : List Nat}
    (h : s.data.drop s.pos = encInt32 v ++ rest) (hv1 : -2147483648 ≤ v)
    (hv2 : v < 2147483648) :
    read_int s = (some v, ⟨s.data, s.pos + 5⟩) := by
  simp only [encInt32, List.cons_append, List.nil_append] at h
  have h1 := view_tail h
  have h2 := view_tail h1
  have h3 := view_tail h2
  have h4 := view_tail h3
  have hl := view_len h4
  have hp : s.pos < s.data.length := by omega
  have hb : s.pos + 5 ≤ s.data.length := by omega
  have hval : i32val (v % 4294967296).toNat = v := by
    simp only [i32val]
    split <;> omega
  simp [read_int, view_byte h, view_byte h1, view_byte h2, view_byte h3,
    view_byte h4, hp, hb, be4_digits, hval]

/-- Decode specification of read_array_header on an array16 header. -/
theorem read_array_header_spec_16 {s : PState} {n : Nat} {rest : List Nat}
    (h : s.data.drop s.pos = 0xdc :: (n / 256) :: (n % 256) :: rest) :
    read_array_header s = (some n, ⟨s.data, s.pos + 3⟩) := by
  have h1 := view_tail h
  have h2 := view_tail h1
  have hl := view_len h2
  have hp : s.pos < s.data.length := by omega
  have hb : s.pos + 1 + 2 ≤ s.data.length := by omega
  have hand : ¬(0xdc &&& 0xf0 = 0x90) := by decide
  simp [read_array_header, view_byte h, view_byte h1, view_byte h2, hp, hb,
    hand, be2_digits]

/-- The cursor view of a fresh parser state over a buffer: the whole
buffer lies ahead. -/
theorem drop_zero_view (l : List Nat) :
    (⟨l, 0⟩ : PState).data.drop (⟨l, 0⟩ : PState).pos = l ++ ([] : List Nat) := by
  simp

/-- Claim C4: for every integer value at the tag boundaries (0x7f max
positive fixint, 0x80 the smallest value needing the 0xcc uint8 form, -1
the minimum-magnitude negative fixint encoded as byte 0xff) and for every
value encoded with the explicit 1-, 2-, 4-, 8-byte unsigned tags 0xcc-0xcf
or the 1-, 2-, 4-byte signed tags 0xd0-0xd2, encoding the value in that
MessagePack form and decoding it with read_uint (respectively read_int)
returns the original value. -/
theorem claim_C4_roundtrip :
    (∀ v : Nat, v ≤ 0x7f →
      read_uint ⟨encUintFix v, 0⟩ = (some v, ⟨encUintFix v, 1⟩)) ∧
    (∀ v : Nat, v < 256 →
      read_uint ⟨encUint8 v, 0⟩ = (some v, ⟨encUint8 v, 2⟩)) ∧
    (∀ v : Nat, v < 65536 →
      read_uint ⟨encUint16 v, 0⟩ = (some v, ⟨encUint16 v, 3⟩)) ∧
    (∀ v : Nat, v < 4294967296 →
      read_uint ⟨encUint32 v, 0⟩ = (some v, ⟨encUint32 v, 5⟩)) ∧
    (∀ v : Nat, v < 18446744073709551616 →
      read_uint ⟨encUint64 v, 0⟩ = (some v, ⟨encUint64 v, 9⟩)) ∧
    (∀ v : Int, -32 ≤ v → v < 0 →
      read_int ⟨encNegFix v, 0⟩ = (some v, ⟨encNegFix v, 1⟩)) ∧
    (∀ v : Int, -128 ≤ v → v < 128 →
      read_int ⟨encInt8 v, 0⟩ = (some v, ⟨encInt8 v, 2⟩)) ∧
    (∀ v : Int, -32768 ≤ v → v < 32768 →
      read_int ⟨encInt16 v, 0⟩ = (some v, ⟨encInt16 v, 3⟩)) ∧
    (∀ v : Int, -2147483648 ≤ v → v < 2147483648 →
      read_int ⟨encInt32 v, 0⟩ = (some v, ⟨encInt32 v, 5⟩)) := by
  refine ⟨fun v hv => ?_, fun v _ => ?_, fun v _ => ?_, fun v _ => ?_,
    fun v _ => ?_, fun v h1 h2 => ?_, fun v h1 h2 => ?_, fun v h1 h2 => ?_,
    fun v h1 h2 => ?_⟩
  · simpa using read_uint_spec_fix (drop_zero_view (encUintFix v)) hv
  · simpa using read_uint_spec_u8 (drop_zero_view (encUint8 v))
  · simpa using read_uint_spec_u16 (drop_zero_view (encUint16 v))
  · simpa using read_uint_spec_u32 (drop_zero_view (encUint32 v))
  · simpa using read_uint_spec_u64 (drop_zero_view (encUint64 v))
  · simpa using read_int_spec_negfix (drop_zero_view (encNegFix v)) h1 h2
  · simpa using read_int_spec_i8 (drop_zero_view (encInt8 v)) h1 h2
  · simpa using read_int_spec_i16 (drop_zero_view (encInt16 v)) h1 h2
  · simpa using read_int_spec_i32 (drop_zero_view (encInt32 v)) h1 h2

/-- Witness for claim C4 at the concrete boundary values named by the claim
and one representative value per explicit-width tag. -/
theorem claim_C4_witness :
    read_uint ⟨encUintFix 0x7f, 0⟩ = (some 0x7f, ⟨encUintFix 0x7f, 1⟩) ∧
    read_uint ⟨encUint8 0x80, 0⟩ = (some 0x80, ⟨encUint8 0x80, 2⟩) ∧
    read_uint ⟨encUint16 40000, 0⟩ = (some 40000, ⟨encUint16 40000, 3⟩) ∧
    read_uint ⟨encUint32 3000000000, 0⟩ =
      (some 3000000000, ⟨encUint32 3000000000, 5⟩) ∧
    read_uint ⟨encUint64 10000000000000000000, 0⟩ =
      (some 10000000000000000000, ⟨encUint64 10000000000000000000, 9⟩) ∧
    read_int ⟨encNegFix (-1), 0⟩ = (some (-1), ⟨encNegFix (-1), 1⟩) ∧
    read_int ⟨encInt8 (-100), 0⟩ = (some (-100), ⟨encInt8 (-100), 2⟩) ∧
    read_int ⟨encInt16 (-30000), 0⟩ = (some (-30000), ⟨encInt16 (-30000), 3⟩) ∧
    read_int ⟨encInt32 (-2000000000), 0⟩ =
      (some (-2000000000), ⟨encInt32 (-2000000000), 5⟩) :=
  ⟨claim_C4_roundtrip.1 0x7f (by decide),
   claim_C4_roundtrip.2.1 0x80 (by decide),
   claim_C4_roundtrip.2.2.1 40000 (by decide),
   claim_C4_roundtrip.2.2.2.1 3000000000 (by decide),
   claim_C4_roundtrip.2.2.2.2.1 10000000000000000000 (by decide),
   claim_C4_roundtrip.2.2.2.2.2.1 (-1) (by decide) (by decide),
   claim_C4_roundtrip.2.2.2.2.2.2.1 (-100) (by decide) (by decide),
   claim_C4_roundtrip.2.2.2.2.2.2.2.1 (-30000) (by decide) (by decide),
   claim_C4_roundtrip.2.2.2.2.2.2.2.2 (-2000000000) (by decide) (by decide)⟩

/-- Failure contract of a decode primitive: on failure the buffer is
unchanged, the position never decreases, advances by at most `c` bytes (the
tag and length-prefix bytes already consumed), stays inside the buffer when
it started inside it, and does not move at all when the buffer was already
exhausted at entry. -/
def FailBound {α : Type} (c : Nat) (f : PState → Option α × PState) : Prop :=
  ∀ s, (f s).1 = none →
    (f s).2.data = s.data ∧
    s.pos ≤ (f s).2.pos ∧
    (f s).2.pos ≤ s.pos + c ∧
    (s.pos ≤ s.data.length → (f s).2.pos ≤ s.data.length) ∧
    (s.data.length ≤ s.pos → (f s).2.pos = s.pos)


/-- Combined step contract of a decode primitive: the buffer is never
replaced, the position never decreases, stays inside the buffer when it
started inside, the state is untouched when the buffer was already
exhausted at entry, and on failure the position advances by at most `cf`
bytes (the tag and length-prefix bytes consumed before the failure was
detected). -/
def StepBound {α : Type} (cf : Nat) (f : PState → Option α × PState) : Prop :=
  ∀ s, (f s).2.data = s.data ∧
    s.pos ≤ (f s).2.pos ∧
    (s.pos ≤ s.data.length → (f s).2.pos ≤ s.data.length) ∧
    (s.data.length ≤ s.pos → (f s).2 = s) ∧
    ((f s).1 = none → (f s).2.pos ≤ s.pos + cf)

theorem read_array_header_stepBound : StepBound 1 read_array_header := by
  intro s
  rcases hr : read_array_header s with ⟨ov, s1⟩
  dsimp only
  unfold read_array_header at hr
  dsimp only at hr
  split_ifs at hr
  all_goals injection hr with ha hb
  all_goals subst hb
  all_goals try subst ha
  all_goals refine ⟨rfl, ?_, ?_, ?_, ?_⟩ <;> dsimp only <;> try omega
  all_goals simp_all

theorem read_uint_stepBound : StepBound 1 read_uint := by
  intro s
  rcases hr : read_uint s with ⟨ov, s1⟩
  dsimp only
  unfold read_uint at hr
  dsimp only at hr
  split_ifs at hr
  all_goals injection hr with ha hb
  all_goals subst hb
  all_goals try subst ha
  all_goals refine ⟨rfl, ?_, ?_, ?_, ?_⟩ <;> dsimp only <;> try omega
  all_goals simp_all

theorem read_float64_stepBound : StepBound 1 read_float64 := by
  intro s
  rcases hr : read_float64 s with ⟨ov, s1⟩
  dsimp only
  unfold read_float64 at hr
  dsimp only at hr
  split_ifs at hr
  all_goals injection hr with ha hb
  all_goals subst hb
  all_goals try subst ha
  all_goals refine ⟨rfl, ?_, ?_, ?_, ?_⟩ <;> dsimp only <;> try omega
  all_goals simp_all

theorem read_int_stepBound : StepBound 1 read_int := by
  intro s
  have hu := read_uint_stepBound s
  rcases hq : read_uint s with ⟨ou, s2⟩
  rw [hq] at hu
  rcases hr : read_int s with ⟨ov, s1⟩
  dsimp only
  unfold read_int at hr
  dsimp only at hr
  rw [hq] at hr
  split_ifs at hr
  all_goals cases ou <;> (try dsimp only at hr) <;> injection hr with ha hb
  all_goals subst hb
  all_goals try subst ha
  all_goals refine ⟨?_, ?_, ?_, ?_, ?_⟩ <;> dsimp only at hu ⊢ <;> try omega
  all_goals simp_all

theorem read_bin_stepBound (m : Nat) : StepBound 5 (read_bin m) := by
  intro s
  rcases hr : read_bin m s with ⟨ov, s1⟩
  dsimp only
  unfold read_bin read_bin_finish at hr
  dsimp only at hr
  split_ifs at hr
  all_goals injection hr with ha hb
  all_goals subst hb
  all_goals try subst ha
  all_goals refine ⟨rfl, ?_, ?_, ?_, ?_⟩ <;> dsimp only <;> try omega
  all_goals simp_all

/-- Claim C1 counterexample: read_array_header on the single byte 0xdc (an
array16 tag with its two length bytes missing) fails because the remaining
bytes cannot satisfy the request, yet the read position advances from 0 to
1: the tag byte was consumed by `data_[pos_++]` before the bounds check. -/
theorem claim_C1_counterexample :
    (read_array_header ⟨[0xdc], 0⟩).1 = none ∧
    (read_array_header ⟨[0xdc], 0⟩).2.pos = 1 := by
  constructor <;> rfl

theorem failBound_of_stepBound {α : Type} {c : Nat} {f : PState → Option α × PState}
    (h : StepBound c f) : FailBound c f := by
  intro s hn
  obtain ⟨h1, h2, h3, h4, h5⟩ := h s
  exact ⟨h1, h2, h5 hn, h3, fun hl => by rw [h4 hl]⟩

/-- Claim C1, amended: when a decode primitive (read_array_header,
read_uint, read_int, read_float64, read_bin) fails because the remaining
bytes cannot satisfy the full request, the read position is NOT always
restored: it advances past the tag and length-prefix bytes already
consumed — at most 1 byte for the scalar reads and at most 5 bytes (tag
plus up to a 4-byte length field) for read_bin.  It never decreases, never
leaves the buffer, and is unchanged when the buffer was already exhausted
before the call. -/
theorem claim_C1_failure_position :
    FailBound 1 read_array_header ∧ FailBound 1 read_uint ∧
    FailBound 1 read_int ∧ FailBound 1 read_float64 ∧
    ∀ m, FailBound 5 (read_bin m) :=
  ⟨failBound_of_stepBound read_array_header_stepBound,
   failBound_of_stepBound read_uint_stepBound,
   failBound_of_stepBound read_int_stepBound,
   failBound_of_stepBound read_float64_stepBound,
   fun m => failBound_of_stepBound (read_bin_stepBound m)⟩

/-- Witness for the amended claim C1 at a concrete truncated input: a
bin32 read on [0xc6, 0, 0, 0, 9] fails (9 payload bytes missing) with the
position moved forward to 5 but still within the 5-byte bound and the
buffer. -/
theorem claim_C1_witness :
    (read_bin 16384 ⟨[0xc6, 0, 0, 0, 9], 0⟩).2.data = [0xc6, 0, 0, 0, 9] ∧
    0 ≤ (read_bin 16384 ⟨[0xc6, 0, 0, 0, 9], 0⟩).2.pos ∧
    (read_bin 16384 ⟨[0xc6, 0, 0, 0, 9], 0⟩).2.pos ≤ 0 + 5 ∧
    (read_bin 16384 ⟨[0xc6, 0, 0, 0, 9], 0⟩).2.pos ≤ 5 := by
  have h := (claim_C1_failure_position.2.2.2.2 16384) ⟨[0xc6, 0, 0, 0, 9], 0⟩
    (by decide)
  exact ⟨h.1, h.2.1, h.2.2.1, h.2.2.2.1 (by decide)⟩

/-- The position facts relating a parser state to the state after one
operation: same buffer, non-decreasing position, and a position that stays
inside the buffer whenever it started inside it. -/
def StepFacts (s t : PState) : Prop :=
  t.data = s.data ∧ s.pos ≤ t.pos ∧
  (s.pos ≤ s.data.length → t.pos ≤ s.data.length)

theorem stepFacts_refl (s : PState) : StepFacts s s :=
  ⟨rfl, le_rfl, fun h => h⟩

theorem stepFacts_trans {a b c : PState} (h1 : StepFacts a b)
    (h2 : StepFacts b c) : StepFacts a c := by
  obtain ⟨e1, m1, b1⟩ := h1
  obtain ⟨e2, m2, b2⟩ := h2
  rw [e1] at b2
  exact ⟨e2.trans e1, le_trans m1 m2, fun h => b2 (b1 h)⟩

/-- Position invariant of a parser operation: whether it succeeds or
fails, the buffer is untouched, the position never decreases and never
moves past the end of the buffer. -/
def PosOK {α : Type} (f : PState → Option α × PState) : Prop :=
  ∀ s, StepFacts s (f s).2

theorem posOK_of_stepBound {α : Type} {c : Nat} {f : PState → Option α × PState}
    (h : StepBound c f) : PosOK f :=
  fun s => ⟨(h s).1, (h s).2.1, (h s).2.2.1⟩

theorem posOK_step {α : Type} {f : PState → Option α × PState} (hf : PosOK f)
    {s t : PState} {o : Option α} (h : f s = (o, t)) : StepFacts s t := by
  have hs := hf s
  rw [h] at hs
  exact hs

theorem read_array_header_posOK : PosOK read_array_header :=
  posOK_of_stepBound read_array_header_stepBound

theorem read_uint_posOK : PosOK read_uint :=
  posOK_of_stepBound read_uint_stepBound

theorem read_int_posOK : PosOK read_int :=
  posOK_of_stepBound read_int_stepBound

theorem read_float64_posOK : PosOK read_float64 :=
  posOK_of_stepBound read_float64_stepBound

theorem read_bin_posOK (m : Nat) : PosOK (read_bin m) :=
  posOK_of_stepBound (read_bin_stepBound m)

theorem readU8Elems_posOK (m k i : Nat) : PosOK (readU8Elems m k i) := by
  induction k generalizing i with
  | zero => intro s; exact stepFacts_refl s
  | succ k ih =>
    intro s
    unfold readU8Elems
    rcases h1 : read_uint s with ⟨o1, s1⟩
    have f1 := posOK_step read_uint_posOK h1
    cases o1 with
    | none => exact f1
    | some v =>
      dsimp only
      rcases h2 : readU8Elems m k (i + 1) s1 with ⟨o2, s2⟩
      have f2 := posOK_step (ih (i + 1)) h2
      cases o2 <;> exact stepFacts_trans f1 f2

theorem readI16Elems_posOK (m k i : Nat) : PosOK (readI16Elems m k i) := by
  induction k generalizing i with
  | zero => intro s; exact stepFacts_refl s
  | succ k ih =>
    intro s
    unfold readI16Elems
    rcases h1 : read_int s with ⟨o1, s1⟩
    have f1 := posOK_step read_int_posOK h1
    cases o1 with
    | none => exact f1
    | some v =>
      dsimp only
      rcases h2 : readI16Elems m k (i + 1) s1 with ⟨o2, s2⟩
      have f2 := posOK_step (ih (i + 1)) h2
      cases o2 <;> exact stepFacts_trans f1 f2

theorem read_u8_array_posOK (m : Nat) : PosOK (read_u8_array m) := by
  intro s
  unfold read_u8_array
  dsimp only
  split_ifs with h1 h2
  · exact read_bin_posOK m s
  · rcases h3 : read_array_header s with ⟨o3, s3⟩
    have f3 := posOK_step read_array_header_posOK h3
    cases o3 with
    | none => exact f3
    | some size =>
      dsimp only
      rcases h4 : readU8Elems m size 0 s3 with ⟨o4, s4⟩
      have f4 := posOK_step (readU8Elems_posOK m size 0) h4
      cases o4 <;> exact stepFacts_trans f3 f4
  · exact stepFacts_refl s

theorem read_i16_array_posOK (m : Nat) : PosOK (read_i16_array m) := by
  intro s
  unfold read_i16_array
  rcases h3 : read_array_header s with ⟨o3, s3⟩
  have f3 := posOK_step read_array_header_posOK h3
  cases o3 with
  | none => exact f3
  | some size =>
    dsimp only
    rcases h4 : readI16Elems m size 0 s3 with ⟨o4, s4⟩
    have f4 := posOK_step (readI16Elems_posOK m size 0) h4
    cases o4 <;> exact stepFacts_trans f3 f4

theorem parse_waveform_posOK : PosOK parse_waveform := by
  intro s
  unfold parse_waveform
  rcases h1 : read_array_header s with ⟨o1, s1⟩
  have f1 := posOK_step read_array_header_posOK h1
  cases o1 with
  | none => exact f1
  | some wf_size =>
    dsimp only
    by_cases hw : wf_size = 8
    · rw [if_pos hw]
      rcases h2 : read_i16_array MAX_WAVEFORM_SAMPLES s1 with ⟨o2, s2⟩
      have f2 := stepFacts_trans f1 (posOK_step (read_i16_array_posOK _) h2)
      cases o2 with
      | none => exact f2
      | some p2 =>
        dsimp only
        rcases h3 : read_i16_array MAX_WAVEFORM_SAMPLES s2 with ⟨o3, s3⟩
        have f3 := stepFacts_trans f2 (posOK_step (read_i16_array_posOK _) h3)
        cases o3 with
        | none => exact f3
        | some p3 =>
          dsimp only
          rcases h4 : read_u8_array MAX_WAVEFORM_SAMPLES s3 with ⟨o4, s4⟩
          have f4 := stepFacts_trans f3 (posOK_step (read_u8_array_posOK _) h4)
          cases o4 with
          | none => exact f4
          | some p4 =>
            dsimp only
            rcases h5 : read_u8_array MAX_WAVEFORM_SAMPLES s4 with ⟨o5, s5⟩
            have f5 := stepFacts_trans f4 (posOK_step (read_u8_array_posOK _) h5)
            cases o5 with
            | none => exact f5
            | some p5 =>
              dsimp only
              rcases h6 : read_u8_array MAX_WAVEFORM_SAMPLES s5 with ⟨o6, s6⟩
              have f6 := stepFacts_trans f5 (posOK_step (read_u8_array_posOK _) h6)
              cases o6 with
              | none => exact f6
              | some p6 =>
                dsimp only
                rcases h7 : read_u8_array MAX_WAVEFORM_SAMPLES s6 with ⟨o7, s7⟩
                have f7 := stepFacts_trans f6 (posOK_step (read_u8_array_posOK _) h7)
                cases o7 with
                | none => exact f7
                | some p7 =>
                  dsimp only
                  rcases h8 : read_uint s7 with ⟨o8, s8⟩
                  have f8 := stepFacts_trans f7 (posOK_step read_uint_posOK h8)
                  cases o8 with
                  | none => exact f8
                  | some tr =>
                    dsimp only
                    rcases h9 : read_uint s8 with ⟨o9, s9⟩
                    have f9 := stepFacts_trans f8 (posOK_step read_uint_posOK h9)
                    cases o9 with
                    | none => exact f9
                    | some th =>
                      rcases p2 with ⟨n1, a1⟩
                      rcases p3 with ⟨n2, a2⟩
                      rcases p4 with ⟨m1, d1⟩
                      rcases p5 with ⟨m2, d2⟩
                      rcases p6 with ⟨m3, d3⟩
                      rcases p7 with ⟨m4, d4⟩
                      exact f9
    · rw [if_neg hw]
      exact f1

theorem parse_event_full_posOK : PosOK parse_event_full := by
  intro s
  unfold parse_event_full
  rcases h1 : read_array_header s with ⟨o1, s1⟩
  have f1 := posOK_step read_array_header_posOK h1
  cases o1 with
  | none => exact f1
  | some ev_size =>
    dsimp only
    by_cases hs : ev_size = 6 ∨ ev_size = 7
    · rw [if_pos hs]
      rcases h2 : read_uint s1 with ⟨o2, s2⟩
      have f2 := stepFacts_trans f1 (posOK_step read_uint_posOK h2)
      cases o2 with
      | none => exact f2
      | some m =>
        dsimp only
        rcases h3 : read_uint s2 with ⟨o3, s3⟩
        have f3 := stepFacts_trans f2 (posOK_step read_uint_posOK h3)
        cases o3 with
        | none => exact f3
        | some c =>
          dsimp only
          rcases h4 : read_uint s3 with ⟨o4, s4⟩
          have f4 := stepFacts_trans f3 (posOK_step read_uint_posOK h4)
          cases o4 with
          | none => exact f4
          | some e =>
            dsimp only
            rcases h5 : read_uint s4 with ⟨o5, s5⟩
            have f5 := stepFacts_trans f4 (posOK_step read_uint_posOK h5)
            cases o5 with
            | none => exact f5
            | some es =>
              dsimp only
              rcases h6 : read_float64 s5 with ⟨o6, s6⟩
              have f6 := stepFacts_trans f5 (posOK_step read_float64_posOK h6)
              cases o6 with
              | none => exact f6
              | some ts =>
                dsimp only
                rcases h7 : read_uint s6 with ⟨o7, s7⟩
                have f7 := stepFacts_trans f6 (posOK_step read_uint_posOK h7)
                cases o7 with
                | none => exact f7
                | some fl =>
                  dsimp only
                  by_cases h7v : ev_size = 7
                  · rw [if_pos h7v]
                    rcases h8 : parse_waveform s7 with ⟨o8, s8⟩
                    have f8 := stepFacts_trans f7
                      (posOK_step parse_waveform_posOK h8)
                    cases o8 with
                    | none => exact f8
                    | some w => exact f8
                  · rw [if_neg h7v]
                    exact f7
    · rw [if_neg hs]
      exact f1

theorem parse_event_summary_posOK : PosOK parse_event_summary := by
  intro s
  unfold parse_event_summary
  rcases h1 : read_array_header s with ⟨o1, s1⟩
  have f1 := posOK_step read_array_header_posOK h1
  cases o1 with
  | none => exact f1
  | some ev_size =>
    dsimp only
    by_cases hs : ev_size = 6
    · rw [if_pos hs]
      rcases h2 : read_uint s1 with ⟨o2, s2⟩
      have f2 := stepFacts_trans f1 (posOK_step read_uint_posOK h2)
      cases o2 with
      | none => exact f2
      | some m =>
        dsimp only
        rcases h3 : read_uint s2 with ⟨o3, s3⟩
        have f3 := stepFacts_trans f2 (posOK_step read_uint_posOK h3)
        cases o3 with
        | none => exact f3
        | some c =>
          dsimp only
          rcases h4 : read_uint s3 with ⟨o4, s4⟩
          have f4 := stepFacts_trans f3 (posOK_step read_uint_posOK h4)
          cases o4 with
          | none => exact f4
          | some e =>
            dsimp only
            rcases h5 : read_uint s4 with ⟨o5, s5⟩
            have f5 := stepFacts_trans f4 (posOK_step read_uint_posOK h5)
            cases o5 with
            | none => exact f5
            | some es =>
              dsimp only
              rcases h6 : read_float64 s5 with ⟨o6, s6⟩
              have f6 := stepFacts_trans f5 (posOK_step read_float64_posOK h6)
              cases o6 with
              | none => exact f6
              | some ts =>
                dsimp only
                rcases h7 : read_uint s6 with ⟨o7, s7⟩
                have f7 := stepFacts_trans f6 (posOK_step read_uint_posOK h7)
                cases o7 with
                | none => exact f7
                | some fl => exact f7
    · rw [if_neg hs]
      exact f1

theorem parseEvents_posOK (k : Nat) : PosOK (parseEvents k) := by
  induction k with
  | zero => intro s; exact stepFacts_refl s
  | succ k ih =>
    intro s
    unfold parseEvents
    rcases h1 : parse_event_summary s with ⟨o1, s1⟩
    have f1 := posOK_step parse_event_summary_posOK h1
    cases o1 with
    | none => exact f1
    | some ev =>
      dsimp only
      rcases h2 : parseEvents k s1 with ⟨o2, s2⟩
      have f2 := stepFacts_trans f1 (posOK_step ih h2)
      cases o2 <;> exact f2

theorem parse_batch_posOK : PosOK parse_batch := by
  intro s
  unfold parse_batch
  rcases h1 : read_array_header s with ⟨o1, s1⟩
  have f1 := posOK_step read_array_header_posOK h1
  cases o1 with
  | none => exact f1
  | some bsz =>
    dsimp only
    by_cases hb : bsz = 4
    · rw [if_pos hb]
      rcases h2 : read_uint s1 with ⟨o2, s2⟩
      have f2 := stepFacts_trans f1 (posOK_step read_uint_posOK h2)
      cases o2 with
      | none => exact f2
      | some src =>
        dsimp only
        rcases h3 : read_uint s2 with ⟨o3, s3⟩
        have f3 := stepFacts_trans f2 (posOK_step read_uint_posOK h3)
        cases o3 with
        | none => exact f3
        | some sq =>
          dsimp only
          rcases h4 : read_uint s3 with ⟨o4, s4⟩
          have f4 := stepFacts_trans f3 (posOK_step read_uint_posOK h4)
          cases o4 with
          | none => exact f4
          | some ts =>
            dsimp only
            rcases h5 : read_array_header s4 with ⟨o5, s5⟩
            have f5 := stepFacts_trans f4 (posOK_step read_array_header_posOK h5)
            cases o5 with
            | none => exact f5
            | some n =>
              dsimp only
              rcases h6 : parseEvents n s5 with ⟨o6, s6⟩
              have f6 := stepFacts_trans f5 (posOK_step (parseEvents_posOK n) h6)
              cases o6 <;> exact f6
    · rw [if_neg hb]
      exact f1

/-- Claim C9: for every MessagePack parser operation, on every buffer and
starting position, whether it succeeds or fails, the buffer is untouched
and the resulting read position pos_ never decreases and never exceeds
data_.size() when it started within the buffer (so no operation indexes the
buffer out of bounds: every access is guarded by the position checks proved
here). -/
theorem claim_C9_position_invariant :
    PosOK read_array_header ∧ PosOK read_uint ∧ PosOK read_int ∧
    PosOK read_float64 ∧ (∀ m, PosOK (read_bin m)) ∧
    (∀ m, PosOK (read_u8_array m)) ∧ (∀ m, PosOK (read_i16_array m)) ∧
    PosOK parse_waveform ∧ PosOK parse_event_full ∧
    PosOK parse_event_summary ∧ (∀ k, PosOK (parseEvents k)) ∧
    PosOK parse_batch :=
  ⟨read_array_header_posOK, read_uint_posOK, read_int_posOK,
   read_float64_posOK, read_bin_posOK, read_u8_array_posOK,
   read_i16_array_posOK, parse_waveform_posOK, parse_event_full_posOK,
   parse_event_summary_posOK, parseEvents_posOK, parse_batch_posOK⟩

/-- Witness for claim C9 on a concrete buffer: a uint16 read on
[0xcd, 1, 2] keeps the buffer, moves the position forward from 0, and
stays within the 3-byte buffer. -/
theorem claim_C9_witness :
    (read_uint ⟨[0xcd, 1, 2], 0⟩).2.data = [0xcd, 1, 2] ∧
    0 ≤ (read_uint ⟨[0xcd, 1, 2], 0⟩).2.pos ∧
    (read_uint ⟨[0xcd, 1, 2], 0⟩).2.pos ≤ 3 := by
  have h := claim_C9_position_invariant.2.1 ⟨[0xcd, 1, 2], 0⟩
  exact ⟨h.1, h.2.1, h.2.2 (by decide)⟩

theorem readU8Elems_len (m : Nat) : ∀ (k i : Nat) (s : PState) (l : List Nat)
    (t : PState), readU8Elems m k i s = (some l, t) → l.length ≤ m - i := by
  intro k
  induction k with
  | zero =>
    intro i s l t h
    injection h with h1 h2
    injection h1 with h1
    subst h1
    simp
  | succ k ih =>
    intro i s l t h
    unfold readU8Elems at h
    rcases hq : read_uint s with ⟨o1, s1⟩
    rw [hq] at h
    cases o1 with
    | none => simp at h
    | some v =>
      dsimp only at h
      rcases hr : readU8Elems m k (i + 1) s1 with ⟨o2, s2⟩
      rw [hr] at h
      cases o2 with
      | none => simp at h
      | some rest =>
        dsimp only at h
        injection h with h1 h2
        injection h1 with h1
        subst h1
        have := ih (i + 1) s1 rest s2 hr
        by_cases hi : i < m <;> simp [hi] <;> omega

theorem readI16Elems_len (m : Nat) : ∀ (k i : Nat) (s : PState) (l : List Int)
    (t : PState), readI16Elems m k i s = (some l, t) → l.length ≤ m - i := by
  intro k
  induction k with
  | zero =>
    intro i s l t h
    injection h with h1 h2
    injection h1 with h1
    subst h1
    simp
  | succ k ih =>
    intro i s l t h
    unfold readI16Elems at h
    rcases hq : read_int s with ⟨o1, s1⟩
    rw [hq] at h
    cases o1 with
    | none => simp at h
    | some v =>
      dsimp only at h
      rcases hr : readI16Elems m k (i + 1) s1 with ⟨o2, s2⟩
      rw [hr] at h
      cases o2 with
      | none => simp at h
      | some rest =>
        dsimp only at h
        injection h with h1 h2
        injection h1 with h1
        subst h1
        have := ih (i + 1) s1 rest s2 hr
        by_cases hi : i < m <;> simp [hi] <;> omega

theorem read_bin_cap {m : Nat} {s : PState} {n : Nat} {l : List Nat}
    {t : PState} (h : read_bin m s = (some (n, l), t)) :
    n ≤ m ∧ l.length ≤ m := by
  unfold read_bin read_bin_finish at h
  dsimp only at h
  split_ifs at h <;> simp at h
  all_goals obtain ⟨⟨ha, hb⟩, hc⟩ := h
  all_goals subst ha
  all_goals subst hb
  all_goals exact ⟨by omega, by simp only [List.length_take]; omega⟩

theorem read_u8_array_cap {m : Nat} {s : PState} {n : Nat} {l : List Nat}
    {t : PState} (h : read_u8_array m s = (some (n, l), t)) :
    n ≤ m ∧ l.length ≤ m := by
  unfold read_u8_array at h
  dsimp only at h
  split_ifs at h with h1 h2
  · exact read_bin_cap h
  · rcases hq : read_array_header s with ⟨o1, s1⟩
    rw [hq] at h
    cases o1 with
    | none => simp at h
    | some size =>
      dsimp only at h
      rcases hr : readU8Elems m size 0 s1 with ⟨o2, s2⟩
      rw [hr] at h
      cases o2 with
      | none => simp at h
      | some stored =>
        dsimp only at h
        injection h with h1 h2
        injection h1 with h1
        injection h1 with ha hb
        subst ha
        subst hb
        have := readU8Elems_len m size 0 s1 stored s2 hr
        exact ⟨by omega, by omega⟩
  · simp at h

theorem read_i16_array_cap {m : Nat} {s : PState} {n : Nat} {l : List Int}
    {t : PState} (h : read_i16_array m s = (some (n, l), t)) :
    n ≤ m ∧ l.length ≤ m := by
  unfold read_i16_array at h
  rcases hq : read_array_header s with ⟨o1, s1⟩
  rw [hq] at h
  cases o1 with
  | none => simp at h
  | some size =>
    dsimp only at h
    rcases hr : readI16Elems m size 0 s1 with ⟨o2, s2⟩
    rw [hr] at h
    cases o2 with
    | none => simp at h
    | some stored =>
      dsimp only at h
      injection h with h1 h2
      injection h1 with h1
      injection h1 with ha hb
      subst ha
      subst hb
      have := readI16Elems_len m size 0 s1 stored s2 hr
      exact ⟨by omega, by omega⟩

/-- Claim C10: for every call to read_i16_array, read_u8_array or read_bin
with destination capacity max_size, the samples actually stored never
occupy an index at or beyond max_size: in this embedding the stored-sample
list (exactly the cells the C code writes, in order) has length at most
max_size, and the returned count n is also at most max_size. -/
theorem claim_C10_store_cap :
    (∀ (m : Nat) (s : PState) (n : Nat) (l : List Nat) (t : PState),
      read_bin m s = (some (n, l), t) → n ≤ m ∧ l.length ≤ m) ∧
    (∀ (m : Nat) (s : PState) (n : Nat) (l : List Nat) (t : PState),
      read_u8_array m s = (some (n, l), t) → n ≤ m ∧ l.length ≤ m) ∧
    (∀ (m : Nat) (s : PState) (n : Nat) (l : List Int) (t : PState),
      read_i16_array m s = (some (n, l), t) → n ≤ m ∧ l.length ≤ m) :=
  ⟨fun _ _ _ _ _ h => read_bin_cap h,
   fun _ _ _ _ _ h => read_u8_array_cap h,
   fun _ _ _ _ _ h => read_i16_array_cap h⟩

/-- Witness for claim C10: a bin8 read of 5 declared bytes with capacity 3
stores 3 samples and reports n = 3 ≤ 3. -/
theorem claim_C10_witness : (3 : Nat) ≤ 3 ∧ ([7, 8, 9] : List Nat).length ≤ 3 :=
  claim_C10_store_cap.1 3 ⟨[0xc4, 5, 7, 8, 9, 10, 11], 0⟩ 3 [7, 8, 9]
    ⟨[0xc4, 5, 7, 8, 9, 10, 11], 7⟩ (by decide)

/-
Encoders for sample sequences: a MessagePack array of unsigned 8-bit ints
(each element in the smallest unsigned form: positive fixint below 0x80,
uint8 otherwise), an array of int16 elements, and bin8/bin16 byte strings.
An array16 header is used for the array forms, a 1- or 2-byte length for
the bin forms; these cover every length the claims quantify over.
-/

def encU8 (b : Nat) : List Nat := if b ≤ 0x7f then [b] else [0xcc, b]

def encU8List : List Nat → List Nat
  | [] => []
  | b :: bs => encU8 b ++ encU8List bs

def encI16List : List Int → List Nat
  | [] => []
  | v :: vs => encInt16 v ++ encI16List vs

def encBin8 (samples : List Nat) : List Nat :=
  0xc4 :: samples.length :: samples

def encBin16 (samples : List Nat) : List Nat :=
  0xc5 :: samples.length / 256 :: samples.length % 256 :: samples

def encArr16U8 (samples : List Nat) : List Nat :=
  0xdc :: samples.length / 256 :: samples.length % 256 :: encU8List samples

def encArr16I16 (samples : List Int) : List Nat :=
  0xdc :: samples.length / 256 :: samples.length % 256 :: encI16List samples

theorem i16cast_eq {v : Int} (h1 : -32768 ≤ v) (h2 : v < 32768) :
    i16cast v = v := by
  simp only [i16cast]
  split <;> omega

theorem encU8_len_fix {b : Nat} (h : b ≤ 0x7f) : (encU8 b).length = 1 := by
  simp [encU8, h]

theorem encU8_len_cc {b : Nat} (h : ¬b ≤ 0x7f) : (encU8 b).length = 2 := by
  simp [encU8, h]

/-- The element loop of read_u8_array consumes exactly the encoded
elements, stores the first max_size - i of them unchanged (each below 256),
and leaves the cursor right after the encoded sequence. -/
theorem readU8Elems_spec (m : Nat) : ∀ (samples rest : List Nat) (i : Nat)
    (s : PState), s.data.drop s.pos = encU8List samples ++ rest →
    (∀ b ∈ samples, b < 256) →
    readU8Elems m samples.length i s =
      (some (samples.take (m - i)),
        ⟨s.data, s.pos + (encU8List samples).length⟩) := by
  intro samples
  induction samples with
  | nil =>
    intro rest i s h hb
    simp [readU8Elems, encU8List]
  | cons b tl ih =>
    intro rest i s h hb
    have hb0 : b < 256 := hb b (by simp)
    have hbtl : ∀ x ∈ tl, x < 256 := fun x hx => hb x (by simp [hx])
    rw [List.length_cons]
    by_cases hfix : b ≤ 0x7f
    · have hview : s.data.drop s.pos = b :: (encU8List tl ++ rest) := by
        simpa [encU8List, encU8, hfix] using h
      have hu : read_uint s = (some b, ⟨s.data, s.pos + 1⟩) :=
        read_uint_spec_fix (by simpa [encUintFix] using hview) hfix
      have htl : (⟨s.data, s.pos + 1⟩ : PState).data.drop (s.pos + 1) =
          encU8List tl ++ rest := view_tail hview
      have ihr := ih rest (i + 1) ⟨s.data, s.pos + 1⟩ htl hbtl
      simp only [readU8Elems]
      rw [hu]
      dsimp only
      rw [ihr]
      dsimp only
      rw [Nat.mod_eq_of_lt hb0]
      by_cases hi : i < m
      · rw [if_pos hi]
        simp only [Prod.mk.injEq, PState.mk.injEq, Option.some.injEq]
        refine ⟨?_, trivial, ?_⟩
        · rw [show m - i = (m - (i + 1)) + 1 from by omega, List.take_succ_cons]
        · rw [show encU8List (b :: tl) = encU8 b ++ encU8List tl from rfl,
            List.length_append, encU8_len_fix hfix]
          omega
      · rw [if_neg hi]
        simp only [Prod.mk.injEq, PState.mk.injEq, Option.some.injEq]
        refine ⟨?_, trivial, ?_⟩
        · rw [show m - i = 0 from by omega, show m - (i + 1) = 0 from by omega]
          simp
        · rw [show encU8List (b :: tl) = encU8 b ++ encU8List tl from rfl,
            List.length_append, encU8_len_fix hfix]
          omega
    · have hview : s.data.drop s.pos = 0xcc :: b :: (encU8List tl ++ rest) := by
        simpa [encU8List, encU8, hfix] using h
      have hu : read_uint s = (some b, ⟨s.data, s.pos + 2⟩) :=
        read_uint_spec_u8 (by simpa [encUint8] using hview)
      have htl : (⟨s.data, s.pos + 2⟩ : PState).data.drop (s.pos + 2) =
          encU8List tl ++ rest := by
        have t1 := view_tail hview
        have t2 := view_tail t1
        simpa using t2
      have ihr := ih rest (i + 1) ⟨s.data, s.pos + 2⟩ htl hbtl
      simp only [readU8Elems]
      rw [hu]
      dsimp only
      rw [ihr]
      dsimp only
      rw [Nat.mod_eq_of_lt hb0]
      by_cases hi : i < m
      · rw [if_pos hi]
        simp only [Prod.mk.injEq, PState.mk.injEq, Option.some.injEq]
        refine ⟨?_, trivial, ?_⟩
        · rw [show m - i = (m - (i + 1)) + 1 from by omega, List.take_succ_cons]
        · rw [show encU8List (b :: tl) = encU8 b ++ encU8List tl from rfl,
            List.length_append, encU8_len_cc hfix]
          omega
      · rw [if_neg hi]
        simp only [Prod.mk.injEq, PState.mk.injEq, Option.some.injEq]
        refine ⟨?_, trivial, ?_⟩
        · rw [show m - i = 0 from by omega, show m - (i + 1) = 0 from by omega]
          simp
        · rw [show encU8List (b :: tl) = encU8 b ++ encU8List tl from rfl,
            List.length_append, encU8_len_cc hfix]
          omega

/-- The element loop of read_i16_array consumes exactly the int16-encoded
elements, stores the first max_size - i of them unchanged, and leaves the
cursor right after the encoded sequence. -/
theorem readI16Elems_spec (m : Nat) : ∀ (samples : List Int) (rest : List Nat)
    (i : Nat) (s : PState), s.data.drop s.pos = encI16List samples ++ rest →
    (∀ v ∈ samples, -32768 ≤ v ∧ v < 32768) →
    readI16Elems m samples.length i s =
      (some (samples.take (m - i)),
        ⟨s.data, s.pos + (encI16List samples).length⟩) := by
  intro samples
  induction samples with
  | nil =>
    intro rest i s h hb
    simp [readI16Elems, encI16List]
  | cons v tl ih =>
    intro rest i s h hb
    have hv := hb v (by simp)
    have hbtl : ∀ x ∈ tl, -32768 ≤ x ∧ x < 32768 := fun x hx => hb x (by simp [hx])
    rw [List.length_cons]
    have hview : s.data.drop s.pos = encInt16 v ++ (encI16List tl ++ rest) := by
      simpa [encI16List] using h
    have hr : read_int s = (some v, ⟨s.data, s.pos + 3⟩) :=
      read_int_spec_i16 hview hv.1 hv.2
    have htl : (⟨s.data, s.pos + 3⟩ : PState).data.drop (s.pos + 3) =
        encI16List tl ++ rest := by
      have hc : s.data.drop s.pos =
          0xd1 :: (v % 65536).toNat / 256 :: (v % 65536).toNat % 256 ::
            (encI16List tl ++ rest) := by
        simpa [encInt16] using hview
      have t1 := view_tail hc
      have t2 := view_tail t1
      have t3 := view_tail t2
      simpa using t3
    have ihr := ih rest (i + 1) ⟨s.data, s.pos + 3⟩ htl hbtl
    simp only [readI16Elems]
    rw [hr]
    dsimp only
    rw [ihr]
    dsimp only
    rw [i16cast_eq hv.1 hv.2]
    by_cases hi : i < m
    · rw [if_pos hi]
      simp only [Prod.mk.injEq, PState.mk.injEq, Option.some.injEq]
      refine ⟨?_, trivial, ?_⟩
      · rw [show m - i = (m - (i + 1)) + 1 from by omega, List.take_succ_cons]
      · rw [show encI16List (v :: tl) = encInt16 v ++ encI16List tl from rfl,
          List.length_append, show (encInt16 v).length = 3 from rfl]
        omega
    · rw [if_neg hi]
      simp only [Prod.mk.injEq, PState.mk.injEq, Option.some.injEq]
      refine ⟨?_, trivial, ?_⟩
      · rw [show m - i = 0 from by omega, show m - (i + 1) = 0 from by omega]
        simp
      · rw [show encI16List (v :: tl) = encInt16 v ++ encI16List tl from rfl,
          List.length_append, show (encInt16 v).length = 3 from rfl]
        omega

/-- Decode specification of read_bin on a bin8 byte string: the returned
count is min(declared, max_size), the stored bytes are the first n payload
bytes, and the cursor consumes the full declared payload. -/
theorem read_bin_spec_bin8 {m : Nat} {s : PState} {payload rest : List Nat}
    (h : s.data.drop s.pos = encBin8 payload ++ rest)
    (_hlen : payload.length < 256) :
    read_bin m s = (some (min payload.length m,
      payload.take (min payload.length m)),
      ⟨s.data, s.pos + 2 + payload.length⟩) := by
  have h0 : s.data.drop s.pos = 0xc4 :: payload.length :: (payload ++ rest) := by
    simpa [encBin8] using h
  have h1 := view_tail h0
  have h2 := view_tail h1
  have hl := view_len h1
  have hlen2 : s.data.length = s.pos + 2 + payload.length + rest.length := by
    simp only [List.length_append] at hl
    omega
  have hp : s.pos < s.data.length := by omega
  have hc1 : s.pos + 1 + 1 ≤ s.data.length := by omega
  have hc2 : s.pos + 1 + 1 + payload.length ≤ s.data.length := by omega
  simp [read_bin, read_bin_finish, view_byte h0, view_byte h1, hp, hc1, hc2, h2]

/-- Decode specification of read_bin on a bin16 byte string. -/
theorem read_bin_spec_bin16 {m : Nat} {s : PState} {payload rest : List Nat}
    (h : s.data.drop s.pos = encBin16 payload ++ rest) :
    read_bin m s = (some (min payload.length m,
      payload.take (min payload.length m)),
      ⟨s.data, s.pos + 3 + payload.length⟩) := by
  have h0 : s.data.drop s.pos = 0xc5 :: payload.length / 256 ::
      (payload.length % 256 :: (payload ++ rest)) := by
    simpa [encBin16] using h
  have h1 := view_tail h0
  have h2 := view_tail h1
  have h3 := view_tail h2
  have hl := view_len h2
  have hlen2 : s.data.length = s.pos + 3 + payload.length + rest.length := by
    simp only [List.length_append] at hl
    omega
  have hp : s.pos < s.data.length := by omega
  have hc1 : s.pos + 1 + 2 ≤ s.data.length := by omega
  have hc2 : s.pos + 1 + 2 + payload.length ≤ s.data.length := by omega
  simp [read_bin, read_bin_finish, view_byte h0, view_byte h1, view_byte h2,
    hp, hc1, hc2, h3, be2_digits]

/-- read_u8_array dispatches to read_bin whenever the next tag is a binary
tag (0xc4, 0xc5, 0xc6). -/
theorem read_u8_array_dispatch_bin {m : Nat} {s : PState}
    (hp : s.pos < s.data.length)
    (hb : byteAt s s.pos = 0xc4 ∨ byteAt s s.pos = 0xc5 ∨
      byteAt s s.pos = 0xc6) :
    read_u8_array m s = read_bin m s := by
  unfold read_u8_array
  dsimp only
  rw [if_pos hp, if_pos hb]

/-- Decode specification of read_u8_array on an array16 of unsigned 8-bit
elements: the returned count is min(declared, max_size), the stored bytes
are the first max_size samples, and the cursor consumes the complete
encoded sequence. -/
theorem read_u8_array_spec_arr {m : Nat} {s : PState} {samples rest : List Nat}
    (h : s.data.drop s.pos = encArr16U8 samples ++ rest)
    (hb : ∀ b ∈ samples, b < 256) :
    read_u8_array m s = (some (min samples.length m, samples.take m),
      ⟨s.data, s.pos + 3 + (encU8List samples).length⟩) := by
  have h0 : s.data.drop s.pos = 0xdc :: samples.length / 256 ::
      (samples.length % 256 :: (encU8List samples ++ rest)) := by
    simpa [encArr16U8] using h
  have h1 := view_tail h0
  have h2 := view_tail h1
  have h3 := view_tail h2
  have hl := view_len h0
  have hp : s.pos < s.data.length := by omega
  have hh : read_array_header s = (some samples.length, ⟨s.data, s.pos + 3⟩) :=
    read_array_header_spec_16 h0
  have he := readU8Elems_spec m samples rest 0 ⟨s.data, s.pos + 3⟩ (by simpa using h3) hb
  unfold read_u8_array
  dsimp only
  rw [if_pos hp]
  rw [if_neg (by rw [view_byte h0]; decide)]
  rw [hh]
  dsimp only
  rw [he]
  dsimp only
  rw [Nat.sub_zero]

/-- Decode specification of read_i16_array on an array16 of int16
elements. -/
theorem read_i16_array_spec_arr {m : Nat} {s : PState} {samples : List Int}
    {rest : List Nat}
    (h : s.data.drop s.pos = encArr16I16 samples ++ rest)
    (hb : ∀ v ∈ samples, -32768 ≤ v ∧ v < 32768) :
    read_i16_array m s = (some (min samples.length m, samples.take m),
      ⟨s.data, s.pos + 3 + (encI16List samples).length⟩) := by
  have h0 : s.data.drop s.pos = 0xdc :: samples.length / 256 ::
      (samples.length % 256 :: (encI16List samples ++ rest)) := by
    simpa [encArr16I16] using h
  have h1 := view_tail h0
  have h2 := view_tail h1
  have h3 := view_tail h2
  have hh : read_array_header s = (some samples.length, ⟨s.data, s.pos + 3⟩) :=
    read_array_header_spec_16 h0
  have he := readI16Elems_spec m samples rest 0 ⟨s.data, s.pos + 3⟩ (by simpa using h3) hb
  unfold read_i16_array
  rw [hh]
  dsimp only
  rw [he]
  dsimp only
  rw [Nat.sub_zero]

/-- Claim C5: for every sequence of at most max_len (16384) 8-bit sample
values, read_u8_array yields the same sample count and the same byte
sequence whether the samples are encoded as a MessagePack bin8 byte string
(a form that exists exactly for sequences shorter than 256, its length
field being one byte) or as a MessagePack array of unsigned integers. -/
theorem claim_C5_bin_array_agree (samples : List Nat)
    (hcap : samples.length ≤ 16384) (hlen : samples.length < 256)
    (hb : ∀ b ∈ samples, b < 256) :
    (read_u8_array 16384 ⟨encBin8 samples, 0⟩).1 =
      some (samples.length, samples) ∧
    (read_u8_array 16384 ⟨encArr16U8 samples, 0⟩).1 =
      some (samples.length, samples) := by
  constructor
  · rw [read_u8_array_dispatch_bin (by simp [encBin8])
      (by left; simp [byteAt, encBin8])]
    rw [read_bin_spec_bin8 (drop_zero_view (encBin8 samples)) hlen]
    dsimp only
    rw [show min samples.length 16384 = samples.length from by omega,
      List.take_length]
  · rw [read_u8_array_spec_arr (drop_zero_view (encArr16U8 samples)) hb]
    dsimp only
    rw [show min samples.length 16384 = samples.length from by omega,
      List.take_of_length_le hcap]

/-- Witness for claim C5 on the concrete sample sequence [1, 200, 3]. -/
theorem claim_C5_witness :
    (read_u8_array 16384 ⟨encBin8 [1, 200, 3], 0⟩).1 =
      some (3, [1, 200, 3]) ∧
    (read_u8_array 16384 ⟨encArr16U8 [1, 200, 3], 0⟩).1 =
      some (3, [1, 200, 3]) :=
  claim_C5_bin_array_agree [1, 200, 3] (by decide) (by decide) (by decide)

/-- Claim C8: for every successful sample-sequence decode whose declared
element count exceeds the cap 16384, the cursor still advances past all
declared elements: the final position is the byte immediately after the
complete encoded sequence, for read_bin (bin16 form shown; the cursor adds
the full declared payload length), read_u8_array and read_i16_array
(array16 forms; the cursor adds the full encoded element list). -/
theorem claim_C8_full_consumption :
    (∀ (payload rest : List Nat) (s : PState),
      s.data.drop s.pos = encBin16 payload ++ rest →
      payload.length > 16384 →
      read_bin 16384 s = (some (16384, payload.take 16384),
        ⟨s.data, s.pos + 3 + payload.length⟩)) ∧
    (∀ (samples rest : List Nat) (s : PState),
      s.data.drop s.pos = encArr16U8 samples ++ rest →
      (∀ b ∈ samples, b < 256) →
      samples.length > 16384 →
      read_u8_array 16384 s = (some (16384, samples.take 16384),
        ⟨s.data, s.pos + 3 + (encU8List samples).length⟩)) ∧
    (∀ (samples : List Int) (rest : List Nat) (s : PState),
      s.data.drop s.pos = encArr16I16 samples ++ rest →
      (∀ v ∈ samples, -32768 ≤ v ∧ v < 32768) →
      samples.length > 16384 →
      read_i16_array 16384 s = (some (16384, samples.take 16384),
        ⟨s.data, s.pos + 3 + (encI16List samples).length⟩)) := by
  refine ⟨fun payload rest s h hg => ?_, fun samples rest s h hb hg => ?_,
    fun samples rest s h hb hg => ?_⟩
  · rw [read_bin_spec_bin16 h]
    rw [show min payload.length 16384 = 16384 from by omega]
  · rw [read_u8_array_spec_arr h hb]
    rw [show min samples.length 16384 = 16384 from by omega]
  · rw [read_i16_array_spec_arr h hb]
    rw [show min samples.length 16384 = 16384 from by omega]

/-- Concrete inputs for the claim C8 witness: 16385 declared samples, one
beyond the cap, in each of the three encodings. -/
def c8s1 : PState := ⟨encBin16 (List.replicate 16385 0), 0⟩

def c8s2 : PState := ⟨encArr16U8 (List.replicate 16385 0), 0⟩

def c8s3 : PState := ⟨encArr16I16 (List.replicate 16385 (0 : Int)), 0⟩

/-- Witness for claim C8 at concrete declared length 16385 (one beyond the
cap) for each of the three decoders. -/
theorem claim_C8_witness :
    read_bin 16384 c8s1 =
      (some (16384, (List.replicate 16385 (0 : Nat)).take 16384),
        ⟨c8s1.data, c8s1.pos + 3 + (List.replicate 16385 (0 : Nat)).length⟩) ∧
    read_u8_array 16384 c8s2 =
      (some (16384, (List.replicate 16385 (0 : Nat)).take 16384),
        ⟨c8s2.data, c8s2.pos + 3 +
          (encU8List (List.replicate 16385 (0 : Nat))).length⟩) ∧
    read_i16_array 16384 c8s3 =
      (some (16384, (List.replicate 16385 (0 : Int)).take 16384),
        ⟨c8s3.data, c8s3.pos + 3 +
          (encI16List (List.replicate 16385 (0 : Int))).length⟩) :=
  ⟨claim_C8_full_consumption.1 (List.replicate 16385 (0 : Nat)) [] c8s1
      (by dsimp only [c8s1]; simp only [List.drop_zero, List.append_nil])
      (by simp only [List.length_replicate]; omega),
   claim_C8_full_consumption.2.1 (List.replicate 16385 (0 : Nat)) [] c8s2
      (by dsimp only [c8s2]; simp only [List.drop_zero, List.append_nil])
      (by intro b hbm; rw [List.eq_of_mem_replicate hbm]; omega)
      (by simp only [List.length_replicate]; omega),
   claim_C8_full_consumption.2.2 (List.replicate 16385 (0 : Int)) [] c8s3
      (by dsimp only [c8s3]; simp only [List.drop_zero, List.append_nil])
      (by intro v hvm; rw [List.eq_of_mem_replicate hvm]; omega)
      (by simp only [List.length_replicate]; omega)⟩

/-- Claim C2 counterexample: a bin16 read whose stream declares 16385
sample bytes (length field 0x40 0x01) with the cap at 16384 returns the
sample count 16384 — the capped value — to the caller, not the declared
16385: the C code sets `n = std::min(size, max_size)`. -/
theorem claim_C2_counterexample :
    ((read_bin 16384 c8s1).1.map Prod.fst) = some 16384 ∧
    (16384 : Nat) ≠ 16385 := by
  constructor
  · have hview : c8s1.data.drop c8s1.pos =
        encBin16 (List.replicate 16385 0) ++ ([] : List Nat) := by
      dsimp only [c8s1]
      simp only [List.drop_zero, List.append_nil]
    rw [read_bin_spec_bin16 hview]
    simp only [Option.map_some', List.length_replicate]
    rfl
  · omega

/-- Claim C2, amended: for every sample-sequence decode (read_bin shown on
the bin16 form, read_u8_array and read_i16_array on the array form) whose
declared element count may exceed the cap 16384, the sample count returned
to the caller equals min(declared length, 16384) — the capped value, not
the full declared length. -/
theorem claim_C2_count_capped :
    (∀ (payload rest : List Nat) (s : PState),
      s.data.drop s.pos = encBin16 payload ++ rest →
      (read_bin 16384 s).1.map Prod.fst = some (min payload.length 16384)) ∧
    (∀ (samples rest : List Nat) (s : PState),
      s.data.drop s.pos = encArr16U8 samples ++ rest →
      (∀ b ∈ samples, b < 256) →
      (read_u8_array 16384 s).1.map Prod.fst =
        some (min samples.length 16384)) ∧
    (∀ (samples : List Int) (rest : List Nat) (s : PState),
      s.data.drop s.pos = encArr16I16 samples ++ rest →
      (∀ v ∈ samples, -32768 ≤ v ∧ v < 32768) →
      (read_i16_array 16384 s).1.map Prod.fst =
        some (min samples.length 16384)) := by
  refine ⟨fun payload rest s h => ?_, fun samples rest s h hb => ?_,
    fun samples rest s h hb => ?_⟩
  · rw [read_bin_spec_bin16 h]
    rfl
  · rw [read_u8_array_spec_arr h hb]
    rfl
  · rw [read_i16_array_spec_arr h hb]
    rfl

/-- Witness for the amended claim C2 on a small concrete input: two
declared bytes, cap 16384, count min(2, 16384). -/
theorem claim_C2_witness :
    (read_bin 16384 ⟨encBin16 [5, 6], 0⟩).1.map Prod.fst =
      some (min ([5, 6] : List Nat).length 16384) :=
  claim_C2_count_capped.1 [5, 6] [] ⟨encBin16 [5, 6], 0⟩ (by simp)

/-- A well-formed 7-element event (waveform variant, all sample arrays
empty): fixarray-7 header, module 1, channel 2, energy 100, energy_short
50, float64 timestamp, flags 0, then a fixarray-8 waveform of six empty
fixarray-0 sample lists, time_resolution 0 and trigger_threshold 0. -/
def ev7bytes : List Nat :=
  [0x97, 0x01, 0x02, 0x64, 0x32,
   0xcb, 0, 0, 0, 0, 0, 0, 0, 0,
   0x00,
   0x98, 0x90, 0x90, 0x90, 0x90, 0x90, 0x90, 0x00, 0x00]

/-- Claim C3 counterexample: on a well-formed 7-element event the full
decoder (convert_to_tree.C) succeeds, but the summary decoder
(read_delila.C) fails: its parse_event requires ev_size == 6 exactly, so
the two usage shapes do not both accept both counts. -/
theorem claim_C3_counterexample :
    (parse_event_full ⟨ev7bytes, 0⟩).1.isSome = true ∧
    (parse_event_summary ⟨ev7bytes, 0⟩).1 = none := by
  constructor <;> rfl

/-- Claim C3, amended: both usage shapes read the declared event-array
length, but only the full decoder accepts both counts: parse_event of
convert_to_tree.C accepts exactly 6 or 7, selecting the waveform variant
solely by that count and failing on any other; parse_event of
read_delila.C accepts only 6 and fails on 7 as on any other count. -/
theorem claim_C3_event_arity :
    (∀ (s : PState) (sz : Nat) (t : PState),
      read_array_header s = (some sz, t) → sz ≠ 6 → sz ≠ 7 →
      parse_event_full s = (none, t)) ∧
    (∀ (s : PState) (sz : Nat) (t : PState),
      read_array_header s = (some sz, t) → sz ≠ 6 →
      parse_event_summary s = (none, t)) ∧
    (∀ (s : PState) (ev : EventFull) (t : PState),
      parse_event_full s = (some ev, t) →
      ((read_array_header s).1 = some 6 ∧ ev.has_waveform = false) ∨
      ((read_array_header s).1 = some 7 ∧ ev.has_waveform = true)) ∧
    (∀ (s : PState) (ev : EventSummary) (t : PState),
      parse_event_summary s = (some ev, t) →
      (read_array_header s).1 = some 6) := by
  refine ⟨fun s sz t h h6 h7 => ?_, fun s sz t h h6 => ?_,
    fun s ev t heq => ?_, fun s ev t heq => ?_⟩
  · unfold parse_event_full
    rw [h]
    dsimp only
    rw [if_neg (by simp [h6, h7])]
  · unfold parse_event_summary
    rw [h]
    dsimp only
    rw [if_neg h6]
  · unfold parse_event_full at heq
    rcases hh : read_array_header s with ⟨o1, s1⟩
    rw [hh] at heq
    cases o1 with
    | none => simp at heq
    | some sz =>
      dsimp only at heq
      by_cases h67 : sz = 6 ∨ sz = 7
      · rw [if_pos h67] at heq
        rcases h2 : read_uint s1 with ⟨o2, s2⟩
        rw [h2] at heq
        cases o2 with
        | none => simp at heq
        | some m =>
          dsimp only at heq
          rcases h3 : read_uint s2 with ⟨o3, s3⟩
          rw [h3] at heq
          cases o3 with
          | none => simp at heq
          | some c =>
            dsimp only at heq
            rcases h4 : read_uint s3 with ⟨o4, s4⟩
            rw [h4] at heq
            cases o4 with
            | none => simp at heq
            | some e =>
              dsimp only at heq
              rcases h5 : read_uint s4 with ⟨o5, s5⟩
              rw [h5] at heq
              cases o5 with
              | none => simp at heq
              | some es =>
                dsimp only at heq
                rcases h6 : read_float64 s5 with ⟨o6, s6⟩
                rw [h6] at heq
                cases o6 with
                | none => simp at heq
                | some ts =>
                  dsimp only at heq
                  rcases h7 : read_uint s6 with ⟨o7, s7⟩
                  rw [h7] at heq
                  cases o7 with
                  | none => simp at heq
                  | some fl =>
                    dsimp only at heq
                    by_cases hsz : sz = 7
                    · rw [if_pos hsz] at heq
                      rcases h8 : parse_waveform s7 with ⟨o8, s8⟩
                      rw [h8] at heq
                      cases o8 with
                      | none => simp at heq
                      | some w =>
                        dsimp only at heq
                        injection heq with ha hb
                        injection ha with ha
                        right
                        refine ⟨by dsimp only; rw [hsz], ?_⟩
                        rw [← ha]
                    · rw [if_neg hsz] at heq
                      injection heq with ha hb
                      injection ha with ha
                      left
                      have h6v : sz = 6 := by
                        rcases h67 with hx | hx
                        · exact hx
                        · exact absurd hx hsz
                      refine ⟨by dsimp only; rw [h6v], ?_⟩
                      rw [← ha]
      · rw [if_neg h67] at heq
        simp at heq
  · unfold parse_event_summary at heq
    rcases hh : read_array_header s with ⟨o1, s1⟩
    rw [hh] at heq
    cases o1 with
    | none => simp at heq
    | some sz =>
      dsimp only at heq
      by_cases h6 : sz = 6
      · dsimp only
        rw [h6]
      · rw [if_neg h6] at heq
        simp at heq

/-- Witness for the amended claim C3: a 5-element header is rejected by
the full decoder, and a 7-element header is rejected by the summary
decoder. -/
theorem claim_C3_witness :
    parse_event_full ⟨[0x95], 0⟩ = (none, ⟨[0x95], 1⟩) ∧
    parse_event_summary ⟨[0x97], 0⟩ = (none, ⟨[0x97], 1⟩) :=
  ⟨claim_C3_event_arity.1 ⟨[0x95], 0⟩ 5 ⟨[0x95], 1⟩ (by decide) (by decide)
      (by decide),
   claim_C3_event_arity.2.1 ⟨[0x97], 0⟩ 7 ⟨[0x97], 1⟩ (by decide) (by decide)⟩

/-- Claim C6: whenever the streaming loop reads a 32-bit block length that
is 0 or exceeds the 100,000,000-byte sanity ceiling, the whole file decode
stops, not just that block: the loop returns only the events accumulated so
far and the cursor rests immediately after the 4-byte length field, so no
payload byte of that block is read and no further block is processed. -/
theorem claim_C6_invalid_block_stops (file : List Nat) (dataEnd pos fuel : Nat)
    (acc : List EventSummary) (hpos : pos < dataEnd)
    (hlen : u32le file pos = 0 ∨ u32le file pos > 100000000) :
    streamLoop file dataEnd (fuel + 1) pos acc = (acc, pos + 4) := by
  unfold streamLoop
  rw [if_pos hpos, if_pos hlen]

/-- Witness for claim C6: a zero block-length field stops the loop at once
with no events and the cursor just past the length field. -/
theorem claim_C6_witness :
    streamLoop [0, 0, 0, 0] 1 1 0 [] = ([], 4) :=
  claim_C6_invalid_block_stops [0, 0, 0, 0] 1 0 0 [] (by decide)
    (Or.inl (by decide))

/-- Claim C7: for every file whose header validates, a 64-byte trailer that
does not begin with the footer magic DLEND002 never fails the read: the
decode still returns every event decoded from the data region (the full
streaming-loop result over [header end, file size - 64)), with the footer
validation reported as a warning (read_footer result false, which the
caller ignores). -/
theorem claim_C7_footer_warning_only (file : List Nat) (hend : Nat)
    (hheader : read_header_m file = some hend)
    (hfooter : (file.drop (file.length - FOOTER_SIZE)).take 8 ≠ FOOTER_MAGIC) :
    read_delila_m file =
      some ((streamLoop file (file.length - FOOTER_SIZE) (file.length + 1)
        hend []).1, false) := by
  unfold read_delila_m
  rw [hheader]
  have hf : read_footer_m file = false := by
    unfold read_footer_m
    rw [if_neg (fun hc => hfooter hc.2)]
  rw [hf]

/-- A complete 100-byte file for the claim C7 witness: valid header with
empty metadata, one 20-byte block holding one batch with a single
6-element event, and a zeroed (invalid-magic) 64-byte footer. -/
def c7file : List Nat :=
  FILE_MAGIC ++ [0, 0, 0, 0] ++
  [20, 0, 0, 0] ++
  [0x94, 0x01, 0x00, 0x00, 0x91,
   0x96, 0x01, 0x02, 0x64, 0x32, 0xcb, 0, 0, 0, 0, 0, 0, 0, 0, 0x00] ++
  List.replicate 64 0

/-- Witness for claim C7: the file with a zeroed footer still decodes to
its one event, and the footer flag is reported false (warning). -/
theorem claim_C7_witness :
    read_delila_m c7file =
      some ((streamLoop c7file (c7file.length - FOOTER_SIZE)
        (c7file.length + 1) 12 []).1, false) ∧
    (streamLoop c7file (c7file.length - FOOTER_SIZE) (c7file.length + 1)
      12 []).1 = [⟨1, 2, 100, 50, 0, 0⟩] :=
  ⟨claim_C7_footer_warning_only c7file 12 (by decide) (by decide),
   by decide⟩
